import Mathlib

/-!
Verification of the schema-introspection, dependency-ordering, statement-splitting,
export-generation and import-running core of a browser-hosted SQL workbench.

The definitions below are a shallow embedding of the TypeScript source:
  * `src/lib/store.ts`              — the application store (tables, foreign keys, history);
  * `src/lib/pglite-provider.tsx`   — `refreshSchema` (catalog reader) and `executeQuery`;
  * `src/components/database-tools.tsx` — `sortTablesByDependencies` (dependency sorter),
    the statement splitter inside `handleImport`, `handleExport` (export generator) and
    `handleClearDatabase`.

The asynchronous engine (`PGlite`) is modelled as a pure oracle: each catalog query or
statement execution is a function returning `Except String` results, mirroring a promise
that either resolves with rows or rejects with an error message.  State mutations through
the zustand store are modelled as explicit state passing in the order the source performs
them.
-/

namespace NeoPg

/-- Column record, from `TableColumn` in `src/lib/types.ts`. -/
structure TableColumn where
  column_name : String
  data_type : String
  is_nullable : String
  column_default : Option String
  is_primary_key : Bool
  is_foreign_key : Bool
  foreign_table : Option String
  foreign_column : Option String
deriving DecidableEq

/-- Table record, from `TableSchema` in `src/lib/types.ts`. -/
structure TableSchema where
  table_name : String
  columns : List TableColumn
deriving DecidableEq

/-- Foreign-key edge record, from `ForeignKey` in `src/lib/types.ts`. -/
structure ForeignKey where
  constraint_name : String
  source_table : String
  source_column : String
  target_table : String
  target_column : String
deriving DecidableEq

/-- JavaScript truthiness of a `string | undefined` value: `undefined` and the empty
string are falsy, every other string is truthy. -/
def jsTruthyOpt : Option String → Bool
  | none => false
  | some s => !(s == "")

/-- The foreign-key reference targets of a table, from `sortTablesByDependencies`
(`database-tools.tsx` lines 91-93): columns with `is_foreign_key` set and a truthy
`foreign_table`, mapped to that target table name. -/
def fkReferences (t : TableSchema) : List String :=
  (t.columns.filter (fun c => c.is_foreign_key && jsTruthyOpt c.foreign_table)).map
    (fun c => c.foreign_table.getD "")

/-- `allDepsResolved` from `sortTablesByDependencies` (lines 96-98): every referenced
table is already placed, or is the table itself (self reference). -/
def depsResolved (t : TableSchema) (added : List String) : Bool :=
  (fkReferences t).all (fun r => added.contains r || r == t.table_name)

/-- The placement condition of `sortTablesByDependencies` (line 100):
`allDepsResolved || fkReferences.length === 0`. -/
def eligible (t : TableSchema) (added : List String) : Bool :=
  depsResolved t added || (fkReferences t).isEmpty

/-- One inner `for` pass of `sortTablesByDependencies` (lines 87-105).  The source
iterates the `remaining` array from its last index down to index 0, so the pass is
modelled as structural recursion over the REVERSED remaining list.  It returns the
tables placed during the pass (in placement order), the tables kept (still in reversed
order), and the grown `added` name set. -/
def passRev : List TableSchema → List String →
    List TableSchema × List TableSchema × List String
  | [], added => ([], [], added)
  | t :: rest, added =>
    if eligible t added then
      let r := passRev rest (t.table_name :: added)
      (t :: r.1, r.2.1, r.2.2)
    else
      let r := passRev rest added
      (r.1, t :: r.2.1, r.2.2)

/-- The outer `while` loop of `sortTablesByDependencies` (lines 83-106), with the
`maxIterations` bound as explicit fuel.  Returns the placed list and the tables still
remaining when the loop exits. -/
def sortLoop : Nat → List TableSchema → List TableSchema → List String →
    List TableSchema × List TableSchema
  | 0, sorted, remaining, _ => (sorted, remaining)
  | Nat.succ fuel, sorted, remaining, added =>
    if remaining.isEmpty then (sorted, remaining)
    else
      let p := passRev remaining.reverse added
      sortLoop fuel (sorted ++ p.1) p.2.1.reverse p.2.2

/-- The loop result of `sortTablesByDependencies`: placed tables plus the remaining
(circular-dependency) tables that line 109 appends at the end. -/
def sortResult (tables : List TableSchema) : List TableSchema × List TableSchema :=
  sortLoop (2 * tables.length) [] tables []

/-- `sortTablesByDependencies` from `database-tools.tsx` lines 77-112. -/
def sortTablesByDependencies (tables : List TableSchema) : List TableSchema :=
  (sortResult tables).1 ++ (sortResult tables).2

/-! ### Statement splitter (`handleImport`, `database-tools.tsx` lines 299-350) -/

/-- The single-quote character. -/
def sq : Char := '\''

/-- The double-quote character. -/
def dq : Char := '"'

/-- The backslash character. -/
def bs : Char := '\\'

/-- JavaScript `String.prototype.trim` on a character list: drop whitespace from both
ends. -/
def trimChars (l : List Char) : List Char :=
  ((l.dropWhile Char.isWhitespace).reverse.dropWhile Char.isWhitespace).reverse

/-- JavaScript `String.prototype.trim`. -/
def jsTrim (s : String) : String :=
  String.mk (trimChars s.data)

/-- JavaScript `String.prototype.split('\n')` helper: characters accumulated for the
current line are kept in reverse. -/
def splitLinesAux : List Char → List Char → List String
  | [], acc => [String.mk acc.reverse]
  | c :: rest, acc =>
    if c = '\n' then String.mk acc.reverse :: splitLinesAux rest []
    else splitLinesAux rest (c :: acc)

/-- JavaScript `String.prototype.split('\n')`. -/
def splitLines (s : String) : List String :=
  splitLinesAux s.data []

/-- JavaScript `String.prototype.startsWith`. -/
def startsWithStr (pre s : String) : Bool :=
  List.isPrefixOf pre.data s.data

/-- JavaScript `String.prototype.toUpperCase` (ASCII, which covers the SQL keywords
involved). -/
def toUpperStr (s : String) : String :=
  String.mk (s.data.map Char.toUpper)

/-- Scanner state of the splitting loop: statements emitted so far, the characters of
`currentStatement`, the `inString` flag, the `stringChar` variable, and the previously
scanned character of the input (`prevChar`; `none` before the first character, matching
the empty string the source uses at index 0). -/
structure ScanSt where
  stmts : List String
  current : List Char
  inString : Bool
  stringChar : Char
  prev : Option Char
deriving DecidableEq

/-- Emission step at a semicolon (lines 336-339) and for the final statement
(lines 347-349): trim the current statement and keep it only if non-empty. -/
def emit (cur : List Char) : List String :=
  let t := jsTrim (String.mk cur)
  if t = "" then [] else [t]

/-- The doubled-quote lookahead of lines 321-329, deciding how the scan proceeds when
the closing quote candidate `c` has been seen: when the next character is the same
quote character, both are copied and the scan advances by two; otherwise the string
closes and `c` is copied (`nextChar` is the empty string at the end of input, which
never equals a quote character). -/
def scanAux : List Char → ScanSt → ScanSt
  | [], st => st
  | [c], st =>
    if (c = sq ∨ c = dq) ∧ st.prev ≠ some bs then
      if !st.inString then
        { st with inString := true, stringChar := c,
                  current := st.current ++ [c], prev := some c }
      else if c = st.stringChar then
        { st with inString := false, current := st.current ++ [c], prev := some c }
      else
        { st with current := st.current ++ [c], prev := some c }
    else if c = ';' ∧ !st.inString then
      { st with stmts := st.stmts ++ emit st.current, current := [], prev := some c }
    else
      { st with current := st.current ++ [c], prev := some c }
  | c :: c2 :: rest2, st =>
    if (c = sq ∨ c = dq) ∧ st.prev ≠ some bs then
      if !st.inString then
        scanAux (c2 :: rest2) { st with inString := true, stringChar := c,
                                        current := st.current ++ [c], prev := some c }
      else if c = st.stringChar then
        if c2 = st.stringChar then
          scanAux rest2
            { st with current := st.current ++ [c, st.stringChar],
                      prev := some st.stringChar }
        else
          scanAux (c2 :: rest2) { st with inString := false,
                                          current := st.current ++ [c], prev := some c }
      else
        scanAux (c2 :: rest2) { st with current := st.current ++ [c], prev := some c }
    else if c = ';' ∧ !st.inString then
      scanAux (c2 :: rest2) { st with stmts := st.stmts ++ emit st.current,
                                      current := [], prev := some c }
    else
      scanAux (c2 :: rest2) { st with current := st.current ++ [c], prev := some c }

/-- Initial scanner state: no statements, empty current statement, not inside a string
(`stringChar` starts as the source's empty-string placeholder, never read before being
assigned), no previous character. -/
def initScan : ScanSt :=
  { stmts := [], current := [], inString := false, stringChar := ' ', prev := none }

/-- Splitting a comment-free SQL text into statements: run the scanning loop, then
append the trailing statement if non-empty (lines 346-350). -/
def splitSqlText (sql : String) : List String :=
  let st := scanAux sql.data initScan
  st.stmts ++ emit st.current

/-- JavaScript `Array.prototype.join` with a separator string. -/
def joinSep (sep : String) : List String → String
  | [] => ""
  | [x] => x
  | x :: xs => x ++ sep ++ joinSep sep xs

/-- Comment-line removal (lines 300-303): drop every physical line whose trimmed
content starts with the line-comment marker, then re-join with newlines. -/
def removeCommentLines (sql : String) : String :=
  joinSep "\n" ((splitLines sql).filter (fun l => !(startsWithStr "--" (jsTrim l))))

/-- The full statement splitter of `handleImport`: comment removal followed by the
quote-aware scan. -/
def splitStatements (sql : String) : List String :=
  splitSqlText (removeCommentLines sql)

/-! ### Application store (`src/lib/store.ts`) -/

/-- History entry, from `QueryHistoryItem` in `src/lib/types.ts`.  The `id`
(`crypto.randomUUID()`) and `timestamp` (`new Date()`) fields are generated
nondeterministically by the environment and are elided from the embedding; the claims
under verification only concern the query text, the success flag, the row count and the
error message. -/
structure QueryHistoryItem where
  query : String
  success : Bool
  rowCount : Option Nat
  error : Option String
deriving DecidableEq

/-- `MAX_HISTORY_ITEMS` from `store.ts` line 14. -/
def MAX_HISTORY_ITEMS : Nat := 50

/-- The slice of the zustand store state the verified components read and write:
`tables`, `foreignKeys`, `queryHistory` and `queryError`.  Pure UI fields
(`queryResult`, `isExecuting`, view modes, diagram positions, loading flags) are
elided. -/
structure StoreState where
  tables : List TableSchema
  foreignKeys : List ForeignKey
  queryHistory : List QueryHistoryItem
  queryError : Option String
deriving DecidableEq

/-- `addToHistory` from `store.ts` lines 98-101: prepend the new item (newest first)
and truncate with `slice(0, MAX_HISTORY_ITEMS)`, evicting the oldest entries at the
tail. -/
def addToHistory (st : StoreState) (item : QueryHistoryItem) : StoreState :=
  { st with queryHistory := (item :: st.queryHistory).take MAX_HISTORY_ITEMS }

/-! ### Catalog reader (`refreshSchema`, `pglite-provider.tsx` lines 135-246) -/

/-- A row of the `information_schema.columns` introspection query. -/
structure RawColumn where
  column_name : String
  data_type : String
  is_nullable : String
  column_default : Option String
deriving DecidableEq

/-- A row of the per-table foreign-key introspection query (lines 177-195). -/
structure FkRow where
  column_name : String
  foreign_table_name : String
  foreign_column_name : String
deriving DecidableEq

/-- The database engine as seen by `refreshSchema`: each catalog query either resolves
with rows or rejects with an error message. -/
structure Engine where
  listTables : Except String (List String)
  columnsOf : String → Except String (List RawColumn)
  pksOf : String → Except String (List String)
  fksOf : String → Except String (List FkRow)
  allFks : Except String (List ForeignKey)

/-- Lookup in the `fkMap` built on lines 197-202: a JavaScript `Map` constructed from
an entry list keeps the LAST entry for a duplicated key, hence the search over the
reversed row list. -/
def fkLookup (rows : List FkRow) (cname : String) : Option FkRow :=
  rows.reverse.find? (fun r => r.column_name == cname)

/-- Column assembly from lines 206-212: spread the raw catalog row and annotate it with
primary-key membership and the foreign-key map entry. -/
def buildColumn (pks : List String) (fkrows : List FkRow) (c : RawColumn) : TableColumn :=
  { column_name := c.column_name
    data_type := c.data_type
    is_nullable := c.is_nullable
    column_default := c.column_default
    is_primary_key := pks.contains c.column_name
    is_foreign_key := (fkLookup fkrows c.column_name).isSome
    foreign_table := (fkLookup fkrows c.column_name).map (fun r => r.foreign_table_name)
    foreign_column := (fkLookup fkrows c.column_name).map (fun r => r.foreign_column_name) }

/-- One iteration of the per-table loop (lines 151-214): the three introspection
queries for a table, then `Column` record assembly.  Any query rejection aborts the
whole refresh. -/
def buildTable (e : Engine) (name : String) : Except String TableSchema := do
  let cols ← e.columnsOf name
  let pks ← e.pksOf name
  let fkrows ← e.fksOf name
  pure { table_name := name, columns := cols.map (buildColumn pks fkrows) }

/-- `refreshSchema` (lines 135-246) as a store transformer.  The `try` block issues the
table-list query, the per-table loop, then `setTables`, then the all-foreign-keys query,
then `setForeignKeys`; the `catch` only logs, so a rejection leaves the store exactly as
the already-executed `set` calls left it. -/
def refreshSchemaM (e : Engine) (st : StoreState) : StoreState :=
  match e.listTables with
  | .error _ => st
  | .ok names =>
    match names.mapM (buildTable e) with
    | .error _ => st
    | .ok tabs =>
      let st1 := { st with tables := tabs }
      match e.allFks with
      | .error _ => st1
      | .ok fks => { st1 with foreignKeys := fks }

/-- Ground-truth catalog content of a healthy engine: per-table column rows, per-table
primary-key column names, and the full foreign-key constraint list.  Both foreign-key
introspection queries of `refreshSchema` are views of the single `fks` list. -/
structure PgCatalog where
  tabs : List String
  cols : List (String × List RawColumn)
  pks : List (String × List String)
  fks : List ForeignKey

/-- The engine presented by a healthy catalog: every query resolves, the per-table
foreign-key query filters the constraint list by source table, and the all-constraint
query returns it whole. -/
def engineOfCatalog (c : PgCatalog) : Engine :=
  { listTables := .ok c.tabs
    columnsOf := fun t => .ok ((c.cols.lookup t).getD [])
    pksOf := fun t => .ok ((c.pks.lookup t).getD [])
    fksOf := fun t => .ok ((c.fks.filter (fun e => e.source_table == t)).map
      (fun e => { column_name := e.source_column
                  foreign_table_name := e.target_table
                  foreign_column_name := e.target_column }))
    allFks := .ok c.fks }

/-- The foreign-key rows the per-table introspection query returns for one table of a
healthy catalog. -/
def catFkRows (c : PgCatalog) (t : String) : List FkRow :=
  (c.fks.filter (fun e => e.source_table == t)).map
    (fun e => { column_name := e.source_column
                foreign_table_name := e.target_table
                foreign_column_name := e.target_column })

/-- The table record `refreshSchema` assembles for one table of a healthy catalog. -/
def catTable (c : PgCatalog) (n : String) : TableSchema :=
  { table_name := n
    columns := ((c.cols.lookup n).getD []).map
      (buildColumn ((c.pks.lookup n).getD []) (catFkRows c n)) }

/-! ### Query execution and import (`executeQuery`, `handleImport`) -/

/-- Observable engine-facing actions of an import run: one statement execution attempt
(with its success flag), or one trigger of the catalog refresh. -/
inductive RunEvent where
  | exec (query : String) (success : Bool)
  | refresh
deriving DecidableEq

/-- The DDL detection of `executeQuery` (lines 296-298): the trimmed upper-cased query
starts with one of the `DDL_PATTERNS` (`CREATE`, `DROP`, `ALTER`). -/
def isDDL (query : String) : Bool :=
  let commandUpper := toUpperStr (jsTrim query)
  startsWithStr "CREATE" commandUpper || startsWithStr "DROP" commandUpper ||
    startsWithStr "ALTER" commandUpper

/-- The history entry `executeQuery` records for one execution: success with row count
(lines 288-294) or failure with the error message (lines 310-316). -/
def mkHistoryItem (query : String) (r : Except String Nat) : QueryHistoryItem :=
  match r with
  | .ok n => { query := query, success := true, rowCount := some n, error := none }
  | .error e => { query := query, success := false, rowCount := none, error := some e }

/-- Result of one `executeQuery` call: the store afterwards, the resolved/rejected
result, and the engine-facing events. -/
structure ExecOutcome where
  store : StoreState
  result : Except String Nat
  events : List RunEvent

/-- `executeQuery` (`pglite-provider.tsx` lines 261-324) over an execution oracle
`exec` (the row count of `db.query`, or a rejection) and a refresh engine `e`.  On
success it records a successful history item and, for a DDL command, awaits
`refreshSchema`; on rejection it records the error in the store and history and
rethrows. -/
def executeQueryM (exec : String → Except String Nat) (e : Engine) (st : StoreState)
    (query : String) : ExecOutcome :=
  match exec query with
  | .ok n =>
    let st1 := addToHistory { st with queryError := none } (mkHistoryItem query (.ok n))
    if isDDL query then
      { store := refreshSchemaM e st1, result := .ok n,
        events := [RunEvent.exec query true, RunEvent.refresh] }
    else
      { store := st1, result := .ok n, events := [RunEvent.exec query true] }
  | .error msg =>
    let st1 := addToHistory { st with queryError := some msg }
      (mkHistoryItem query (.error msg))
    { store := st1, result := .error msg, events := [RunEvent.exec query false] }

/-- Result of an import run: the final store, the success and failure counters, and
the event trace. -/
structure ImportResult where
  store : StoreState
  succeeded : Nat
  failed : Nat
  events : List RunEvent

/-- The sequential statement loop of `handleImport` (lines 357-368): skip blank
statements, execute each remaining statement with a terminating semicolon appended,
count successes and failures, and continue past failures. -/
def runStatementsM (exec : String → Except String Nat) (e : Engine) (st : StoreState) :
    List String → ImportResult
  | [] => { store := st, succeeded := 0, failed := 0, events := [] }
  | s :: rest =>
    if jsTrim s = "" then runStatementsM exec e st rest
    else
      let o := executeQueryM exec e st (s ++ ";")
      let r := runStatementsM exec e o.store rest
      match o.result with
      | .ok _ => { r with succeeded := r.succeeded + 1, events := o.events ++ r.events }
      | .error _ => { r with failed := r.failed + 1, events := o.events ++ r.events }

/-- `handleImport` (`database-tools.tsx` lines 290-391): split the file text into
statements, run them sequentially, then await one final `refreshSchema`. -/
def handleImportM (exec : String → Except String Nat) (e : Engine) (st : StoreState)
    (sqlFileText : String) : ImportResult :=
  let statements := splitStatements sqlFileText
  let r := runStatementsM exec e st statements
  { store := refreshSchemaM e r.store, succeeded := r.succeeded, failed := r.failed,
    events := r.events ++ [RunEvent.refresh] }

/-- The statements an import run actually executes: the splitter output minus blank
entries (the `if (!statement.trim()) continue` guard of line 359). -/
def importStatements (sqlFileText : String) : List String :=
  (splitStatements sqlFileText).filter (fun s => !(jsTrim s == ""))

/-! ### Export generator (`handleExport`, `database-tools.tsx` lines 125-288) -/

/-- The single-quote character as a one-character string. -/
def sqS : String := String.mk [sq]

/-- Containment of a character pattern at some position of a character list. -/
def containsSubstrL (pat : List Char) : List Char → Bool
  | [] => pat.isEmpty
  | c :: rest => pat.isPrefixOf (c :: rest) || containsSubstrL pat rest

/-- Substring containment, for the JavaScript `String.prototype.includes` calls. -/
def containsSubstr (s pat : String) : Bool :=
  containsSubstrL pat.data s.data

/-- The type-name mapping of `convertDataType` (lines 46-56): the `switch` over common
catalog type names, defaulting to upper-casing. -/
def mapDataType (dataType : String) : String :=
  if dataType == "character varying" then "VARCHAR(255)"
  else if dataType == "timestamp without time zone" then "TIMESTAMP"
  else if dataType == "timestamp with time zone" then "TIMESTAMPTZ"
  else dataType.toUpper

/-- `convertDataType` (lines 38-57): a column whose (truthy) default contains
`nextval(` is rendered as the matching SERIAL type when its type is one of the three
integer types; every other case falls through to the common mapping. -/
def convertDataType (dataType : String) (columnDefault : Option String) : String :=
  if jsTruthyOpt columnDefault && containsSubstr (columnDefault.getD "") "nextval(" then
    if dataType == "integer" then "SERIAL"
    else if dataType == "bigint" then "BIGSERIAL"
    else if dataType == "smallint" then "SMALLSERIAL"
    else mapDataType dataType
  else mapDataType dataType

/-- `shouldIncludeDefault` (lines 60-65): falsy defaults and `nextval(` defaults are
skipped. -/
def shouldIncludeDefault (columnDefault : Option String) : Bool :=
  if !jsTruthyOpt columnDefault then false
  else if containsSubstr (columnDefault.getD "") "nextval(" then false
  else true

/-- Character class of the type-cast regex `/::[a-z_ ]+/gi`: with the `i` flag it
matches both letter cases, plus underscore and space. -/
def castChar (c : Char) : Bool :=
  ('a' ≤ c && c ≤ 'z') || ('A' ≤ c && c ≤ 'Z') || c == '_' || c == ' '

/-- The global regex replacement of `formatDefault` (lines 68-74): each occurrence of
`::` followed by a maximal non-empty run of cast characters is deleted, scanning left
to right and resuming after each match. -/
def stripCastsAux : Bool → List Char → List Char
  | _, [] => []
  | sk, [c] => if sk && castChar c then [] else [c]
  | sk, c1 :: c2 :: rest =>
    if sk && castChar c1 then stripCastsAux sk (c2 :: rest)
    else if c1 == ':' && c2 == ':' && (rest.head?.elim false castChar) then
      stripCastsAux true rest
    else c1 :: stripCastsAux false (c2 :: rest)

/-- `formatDefault` (lines 68-74). -/
def formatDefault (columnDefault : String) : String :=
  String.mk (stripCastsAux false columnDefault.data)

/-- The NOT NULL suffix appended on lines 182-185 (skipped for SERIAL types, which are
implicitly NOT NULL). -/
def notNullSuffix (c : RawColumn) : String :=
  if c.is_nullable == "NO" && !(containsSubstr (convertDataType c.data_type c.column_default) "SERIAL")
    then " NOT NULL" else ""

/-- The DEFAULT suffix appended on lines 187-190. -/
def defaultSuffix (c : RawColumn) : String :=
  if shouldIncludeDefault c.column_default && jsTruthyOpt c.column_default
    then " DEFAULT " ++ formatDefault (c.column_default.getD "") else ""

/-- One column definition line of the CREATE section (lines 178-193), built by the
same incremental string appends as the source (`def` starts from the quoted name and
type, then optionally gains NOT NULL and DEFAULT suffixes). -/
def columnDef (c : RawColumn) : String :=
  "  \"" ++ (c.column_name ++ ("\" " ++ (convertDataType c.data_type c.column_default ++
    (notNullSuffix c ++ defaultSuffix c))))

/-- The inline PRIMARY KEY clause (lines 196-201), built from the store's column
records rather than the freshly queried rows. -/
def pkClause (t : TableSchema) : List String :=
  let pkColumns := (t.columns.filter (fun c => c.is_primary_key)).map
    (fun c => "\"" ++ c.column_name ++ "\"")
  if pkColumns.isEmpty then []
  else ["  PRIMARY KEY (" ++ joinSep ", " pkColumns ++ ")"]

/-- One DROP line of the export script (line 147). -/
def dropLine (t : TableSchema) : String :=
  "DROP TABLE IF EXISTS \"" ++ t.table_name ++ "\" CASCADE;"

/-- The CREATE-section lines contributed by one table (lines 153-211): a rejection of
the column-metadata query is caught and the table skipped; a table with no column rows
also contributes nothing.  Note the joined column definitions form a single pushed
string containing embedded newlines. -/
def createBlock (colMeta : String → Except String (List RawColumn)) (t : TableSchema) :
    List String :=
  match colMeta t.table_name with
  | .error _ => []
  | .ok rows =>
    if rows.length > 0 then
      ["-- Table: " ++ t.table_name,
       "CREATE TABLE \"" ++ t.table_name ++ "\" (",
       joinSep ",\n" (rows.map columnDef ++ pkClause t),
       ");", ""]
    else []

/-- One ALTER TABLE foreign-key constraint line (lines 217-221). -/
def fkLine (t : TableSchema) (c : TableColumn) : String :=
  "ALTER TABLE \"" ++ t.table_name ++ "\" ADD CONSTRAINT \"fk_" ++ t.table_name ++
    "_" ++ c.column_name ++ "\" FOREIGN KEY (\"" ++ c.column_name ++
    "\") REFERENCES \"" ++ (c.foreign_table.getD "") ++ "\"(\"" ++
    (c.foreign_column.getD "") ++ "\");"

/-- The foreign-key constraint lines contributed by one table (lines 215-223):
columns with the flag and truthy target table and column names. -/
def fkBlock (t : TableSchema) : List String :=
  ((t.columns.filter (fun c => c.is_foreign_key && jsTruthyOpt c.foreign_table &&
    jsTruthyOpt c.foreign_column)).map (fkLine t))

/-- A cell value of an exported row, tagged the way the `typeof` dispatch of
lines 239-245 distinguishes them: SQL NULL, a string, a boolean, a `Date` (carrying
its ISO-8601 rendering), or anything else (carrying its `String(val)` rendering). -/
inductive SqlValue where
  | vnull
  | vstr (s : String)
  | vbool (b : Bool)
  | vdate (iso : String)
  | vother (s : String)
deriving DecidableEq

/-- Single-quote doubling of `replace(/'/g, "''")` (line 241). -/
def escapeQuotes (s : String) : String :=
  String.mk (s.data.foldr (fun c acc => (if c = sq then [sq, sq] else [c]) ++ acc) [])

/-- Value rendering of lines 239-245. -/
def formatValue : SqlValue → String
  | .vnull => "NULL"
  | .vstr s => sqS ++ escapeQuotes s ++ sqS
  | .vbool b => if b then "TRUE" else "FALSE"
  | .vdate iso => sqS ++ iso ++ sqS
  | .vother s => s

/-- A data row as `Object.keys`/`Object.values` expose it: named cells in property
order. -/
def InsRow : Type := List (String × SqlValue)

/-- One INSERT line (lines 237-249). -/
def insertLine (t : TableSchema) (row : InsRow) : String :=
  "INSERT INTO \"" ++ t.table_name ++ "\" (" ++
    joinSep ", " (row.map (fun p => "\"" ++ p.1 ++ "\"")) ++ ") VALUES (" ++
    joinSep ", " (row.map (fun p => formatValue p.2)) ++ ");"

/-- The data-section lines contributed by one table (lines 228-256): a rejected data
query is caught and the table skipped; a table with no rows contributes nothing. -/
def dataBlock (dataOf : String → Except String (List InsRow)) (t : TableSchema) :
    List String :=
  match dataOf t.table_name with
  | .error _ => []
  | .ok rows =>
    if rows.length > 0 then
      ("-- Data for " ++ t.table_name) :: rows.map (insertLine t) ++ [""]
    else []

/-- The sequence-reset lines contributed by one table (lines 260-268): one `setval`
statement per primary-key column. -/
def seqBlock (t : TableSchema) : List String :=
  ((t.columns.filter (fun c => c.is_primary_key)).map (fun c =>
    "SELECT setval(pg_get_serial_sequence(" ++ sqS ++ "\"" ++ t.table_name ++ "\"" ++
      sqS ++ ", " ++ sqS ++ c.column_name ++ sqS ++ "), COALESCE((SELECT MAX(\"" ++
      c.column_name ++ "\") FROM \"" ++ t.table_name ++ "\"), 1), true);"))

/-- The header lines of the export script (lines 140-142): tool banner and generation
timestamp. -/
def expHeader (ts : String) : List String :=
  ["-- Neo" ++ sqS ++ "s Postgres Emulator - Database Export",
   "-- Generated: " ++ ts, ""]

/-- The `lines` array of `handleExport` (lines 139-269) as the source pushes it, one
section loop after another, over a column-metadata oracle, a data oracle and the
generation timestamp. -/
def generateExportLines (tables : List TableSchema)
    (colMeta : String → Except String (List RawColumn))
    (dataOf : String → Except String (List InsRow)) (ts : String) : List String :=
  let sortedTables := sortTablesByDependencies tables
  let l1 := expHeader ts
  let l2 := l1 ++ ["-- Drop existing tables"]
  let l3 := sortedTables.reverse.foldl (fun acc t => acc ++ [dropLine t]) l2
  let l4 := l3 ++ [""] ++ ["-- Create tables"]
  let l5 := sortedTables.foldl (fun acc t => acc ++ createBlock colMeta t) l4
  let l6 := l5 ++ ["-- Foreign Key Constraints"]
  let l7 := sortedTables.foldl (fun acc t => acc ++ fkBlock t) l6
  let l8 := l7 ++ [""] ++ ["-- Data"]
  let l9 := sortedTables.foldl (fun acc t => acc ++ dataBlock dataOf t) l8
  let l10 := l9 ++ ["-- Reset sequences"]
  let l11 := sortedTables.foldl (fun acc t => acc ++ seqBlock t) l10
  l11 ++ [""]

/-- `handleExport` (lines 125-288): with no tables it warns and produces no script;
otherwise it builds the script lines. -/
def handleExportM (tables : List TableSchema)
    (colMeta : String → Except String (List RawColumn))
    (dataOf : String → Except String (List InsRow)) (ts : String) :
    Option (List String) :=
  if tables.length = 0 then none
  else some (generateExportLines tables colMeta dataOf ts)

/-- The DROP statements `handleClearDatabase` (lines 402-424) issues, in order: the
store's table list reversed in place, NOT the dependency-sorted order. -/
def clearStatements (tables : List TableSchema) : List String :=
  (tables.reverse).map (fun t =>
    "DROP TABLE IF EXISTS \"" ++ t.table_name ++ "\" CASCADE")

/-! ### Auxiliary notions used by the statements of the theorems -/

/-- Recognizer for the DROP statements of the export script: lines whose characters
start with `DROP TABLE`. -/
def isDropLine (l : String) : Bool :=
  List.isPrefixOf "DROP TABLE".data l.data

/-- The lines contributed by one section loop of the export generator: each table's
block, concatenated in table order. -/
def sectionOf (f : TableSchema → List String) : List TableSchema → List String
  | [] => []
  | t :: ts => f t ++ sectionOf f ts

/-- A placement chain: starting from the already-placed name set `added`, each table of
the list has every foreign-key reference either already placed before it or equal to its
own name.  This is the invariant the sorter's placements satisfy. -/
def GoodChain : List String → List TableSchema → Prop
  | _, [] => True
  | added, t :: rest =>
    (∀ r ∈ fkReferences t, r ∈ added ∨ r = t.table_name) ∧
      GoodChain (t.table_name :: added) rest

/-- A multi-statement SQL text in canonical form: every statement followed by a
terminating semicolon. -/
def joinSemi : List String → String
  | [] => ""
  | s :: rest => s ++ ";" ++ joinSemi rest

/-- A statement string is scan-safe when the splitting loop, run on it alone from the
initial state, emits nothing, copies every character into the current statement, and
ends outside any string: such a statement contains no top-level semicolon and no
unterminated quote. -/
def scanSafe (s : String) : Bool :=
  let fin := scanAux s.data initScan
  fin.stmts == [] && fin.current == s.data && fin.inString == false

/-- Whether a promise-modelling result resolved. -/
def isOkE : Except String Nat → Bool
  | .ok _ => true
  | .error _ => false

/-- The number of catalog-refresh triggers in an event trace. -/
def countRefreshes (evs : List RunEvent) : Nat :=
  (evs.filter (fun ev => ev == RunEvent.refresh)).length

/-! ### Concrete fixtures for the closed theorems and witnesses -/

/-- A foreign-key column referencing `tgt.id`. -/
def colFkTo (n tgt : String) : TableColumn :=
  { column_name := n, data_type := "integer", is_nullable := "YES",
    column_default := none, is_primary_key := false, is_foreign_key := true,
    foreign_table := some tgt, foreign_column := some "id" }

/-- A plain integer column. -/
def colPlain (n : String) : TableColumn :=
  { column_name := n, data_type := "integer", is_nullable := "YES",
    column_default := none, is_primary_key := false, is_foreign_key := false,
    foreign_table := none, foreign_column := none }

/-- Table `a` with a foreign key to table `b`. -/
def tblA : TableSchema := { table_name := "a", columns := [colFkTo "b_id" "b"] }

/-- Table `b` with no foreign keys. -/
def tblB : TableSchema := { table_name := "b", columns := [colPlain "x"] }

/-- Table `c` with no foreign keys. -/
def tblC : TableSchema := { table_name := "c", columns := [colPlain "x"] }

/-- Table `a` referencing both the present table `b` and the absent table `x`. -/
def tblAdangling : TableSchema :=
  { table_name := "a", columns := [colFkTo "b_id" "b", colFkTo "x_id" "x"] }

/-- Table `b` referencing only the absent table `y`. -/
def tblBdangling : TableSchema :=
  { table_name := "b", columns := [colFkTo "y_id" "y"] }

/-- An empty store. -/
def emptyStore : StoreState :=
  { tables := [], foreignKeys := [], queryHistory := [], queryError := none }

/-- A pre-existing foreign-key edge in the store before the failing refresh. -/
def oldEdge : ForeignKey :=
  { constraint_name := "old_fk", source_table := "t", source_column := "old_col",
    target_table := "u", target_column := "id" }

/-- Store holding a previous snapshot: no tables yet but one stale edge. -/
def preStore : StoreState :=
  { tables := [], foreignKeys := [oldEdge], queryHistory := [], queryError := none }

/-- An engine whose table-list, column, primary-key and per-table foreign-key queries
all resolve (one table `t` whose column `c` carries a foreign key), but whose final
all-foreign-keys query rejects. -/
def badEngine : Engine :=
  { listTables := .ok ["t"]
    columnsOf := fun _ => .ok [{ column_name := "c", data_type := "integer",
                                 is_nullable := "YES", column_default := none }]
    pksOf := fun _ => .ok []
    fksOf := fun _ => .ok [{ column_name := "c", foreign_table_name := "v",
                             foreign_column_name := "id" }]
    allFks := .error "relation does not exist" }

/-- A healthy two-table catalog: `posts.user_id` references `users.id`. -/
def catalogW : PgCatalog :=
  { tabs := ["posts", "users"]
    cols := [("posts", [{ column_name := "id", data_type := "integer",
                          is_nullable := "NO", column_default := some "nextval(...)" },
                        { column_name := "user_id", data_type := "integer",
                          is_nullable := "NO", column_default := none }]),
             ("users", [{ column_name := "id", data_type := "integer",
                          is_nullable := "NO",
                          column_default := some "nextval(...)" }])]
    pks := [("posts", ["id"]), ("users", ["id"])]
    fks := [{ constraint_name := "posts_user_id_fkey", source_table := "posts",
              source_column := "user_id", target_table := "users",
              target_column := "id" }] }

/-- The column record `refreshSchema` assembles for `posts.user_id` of `catalogW`. -/
def colUserIdW : TableColumn :=
  { column_name := "user_id", data_type := "integer", is_nullable := "NO",
    column_default := none, is_primary_key := false, is_foreign_key := true,
    foreign_table := some "users", foreign_column := some "id" }

/-- An execution oracle that resolves every statement with zero rows. -/
def execAllOk : String → Except String Nat := fun _ => .ok 0

/-- An engine with an empty catalog, for import runs whose refreshes are not under
scrutiny. -/
def emptyEngine : Engine := engineOfCatalog { tabs := [], cols := [], pks := [], fks := [] }

/-- A concrete raw catalog column for evaluated examples. -/
def rawColX : RawColumn :=
  { column_name := "x", data_type := "integer", is_nullable := "YES",
    column_default := none }

/-- A concrete column-metadata oracle for evaluated examples. -/
def cmW : String → Except String (List RawColumn) := fun _ => .ok [rawColX]

/-- A concrete data oracle for evaluated examples. -/
def drW : String → Except String (List InsRow) := fun _ => .ok [[("x", SqlValue.vother "1")]]

/-- A concrete canonical statement list: a plain statement and one carrying a quoted
semicolon. -/
def stmtsW : List String :=
  ["SELECT 1",
   "INSERT INTO t VALUES (" ++ String.mk [sq] ++ "a;b" ++ String.mk [sq] ++ ")"]

/-- A concrete mid-scan state: inside a single-quoted string, with some characters
already copied. -/
def stW : ScanSt :=
  { stmts := [], current := ['S', sq, 'i', 't'], inString := true, stringChar := sq,
    prev := some 't' }

/-! ## Theorems -/

/-- C1: the claim says a failing catalog query during `refresh()` must leave the
previously exposed schema state unmutated, never mixing tables of one refresh with
foreign-key edges of another.  The code violates this: `refreshSchema` publishes the
new table list with `setTables` BEFORE issuing the all-foreign-keys query, so when that
final query rejects, the store ends up with the fresh tables and the stale edge list.
Concretely, starting from a store holding only the stale edge `oldEdge`, a refresh whose
first four query groups resolve but whose all-foreign-keys query rejects changes
`tables`, keeps the old `foreignKeys`, and exposes a column flagged as a foreign key
with no matching edge in the same published state — exactly the torn snapshot the claim
rules out. -/
theorem c1_refresh_failure_tears_snapshot :
    (refreshSchemaM badEngine preStore).tables ≠ preStore.tables ∧
    (refreshSchemaM badEngine preStore).foreignKeys = preStore.foreignKeys ∧
    ∃ t ∈ (refreshSchemaM badEngine preStore).tables,
      ∃ c ∈ t.columns, c.is_foreign_key = true ∧
        ∀ e ∈ (refreshSchemaM badEngine preStore).foreignKeys,
          ¬(e.source_table = t.table_name ∧ e.source_column = c.column_name) := by
  decide

/-- C2 counterexample: the claim says every import run triggers the catalog refresh
exactly once, and only after all statements have executed.  Importing a file whose
statements all succeed and whose first statement is DDL refutes both parts:
`executeQuery` itself awaits `refreshSchema` after each successful DDL statement, so
the trace contains two refreshes and the first one happens before the second statement
runs. -/
theorem c2_counterexample :
    countRefreshes (handleImportM execAllOk emptyEngine emptyStore
        "CREATE TABLE t (x INT); SELECT 1;").events = 2 ∧
    (handleImportM execAllOk emptyEngine emptyStore
        "CREATE TABLE t (x INT); SELECT 1;").events =
      [RunEvent.exec "CREATE TABLE t (x INT);" true, RunEvent.refresh,
       RunEvent.exec "SELECT 1;" true, RunEvent.refresh] := by
  constructor
  · decide
  · decide

/-- The refresh triggers of the statement loop: one per successful DDL statement. -/
theorem countRefreshes_append (a b : List RunEvent) :
    countRefreshes (a ++ b) = countRefreshes a + countRefreshes b := by
  simp [countRefreshes, List.filter_append]

/-- An execution event does not count as a refresh. -/
theorem countRefreshes_cons_exec (q : String) (ok : Bool) (evs : List RunEvent) :
    countRefreshes (RunEvent.exec q ok :: evs) = countRefreshes evs := by
  simp [countRefreshes]

/-- A refresh event adds one to the count. -/
theorem countRefreshes_cons_refresh (evs : List RunEvent) :
    countRefreshes (RunEvent.refresh :: evs) = countRefreshes evs + 1 := by
  simp [countRefreshes, Nat.add_comm]

/-- The empty trace has no refreshes. -/
theorem countRefreshes_nil : countRefreshes [] = 0 := rfl

/-- Refresh count of the sequential statement loop of `handleImport`: one refresh per
non-blank statement that is DDL and succeeds. -/
theorem countRefreshes_run (exec : String → Except String Nat) (e : Engine) :
    ∀ (l : List String) (st : StoreState),
    countRefreshes (runStatementsM exec e st l).events =
      (l.filter (fun s =>
        (isDDL (s ++ ";") && isOkE (exec (s ++ ";"))) && !(jsTrim s == ""))).length := by
  intro l
  induction l with
  | nil => intro st; simp [runStatementsM, countRefreshes_nil]
  | cons s rest ih =>
    intro st
    by_cases h : jsTrim s = ""
    · simp [runStatementsM, h, ih]
    · rcases hx : exec (s ++ ";") with n | msg
      all_goals rcases hd : isDDL (s ++ ";") with _ | _
      all_goals
        simp [runStatementsM, h, executeQueryM, hx, hd, ih, countRefreshes_cons_exec,
          countRefreshes_cons_refresh, isOkE]

/-- C2 (amended): a final catalog refresh is always triggered after all statements of
an import run have attempted execution, regardless of how many succeeded or failed;
however the refresh is not exactly once — each successful DDL statement additionally
triggers an immediate refresh inside `executeQuery`, so the total refresh count of a
run is one plus the number of successful DDL statements. -/
theorem c2_refresh_after_import_amended (exec : String → Except String Nat) (e : Engine)
    (st : StoreState) (sqlFileText : String) :
    (handleImportM exec e st sqlFileText).events.getLast? = some RunEvent.refresh ∧
    countRefreshes (handleImportM exec e st sqlFileText).events =
      1 + ((importStatements sqlFileText).filter
        (fun s => isDDL (s ++ ";") && isOkE (exec (s ++ ";")))).length := by
  constructor
  · simp [handleImportM]
  · show countRefreshes ((runStatementsM exec e st (splitStatements sqlFileText)).events
      ++ [RunEvent.refresh]) = _
    rw [countRefreshes_append, countRefreshes_run]
    simp [importStatements, countRefreshes_cons_refresh, countRefreshes_nil,
      List.filter_filter, Nat.add_comm, Bool.and_comm, Bool.and_assoc,
      Bool.and_left_comm]

/-- Each section loop of `handleExport` appends its per-table blocks to the
accumulated lines. -/
theorem foldl_append_blocks (f : TableSchema → List String) :
    ∀ (l : List TableSchema) (acc : List String),
    l.foldl (fun a t => a ++ f t) acc = acc ++ sectionOf f l := by
  intro l
  induction l with
  | nil => intro acc; simp [sectionOf]
  | cons t ts ih => intro acc; simp [sectionOf, ih]

/-- A section whose blocks are single lines is a map. -/
theorem sectionOf_singleton (g : TableSchema → String) :
    ∀ l : List TableSchema, sectionOf (fun t => [g t]) l = l.map g := by
  intro l
  induction l with
  | nil => rfl
  | cons t ts ih => simp [sectionOf, ih]

/-- The export script, written as its six sections in emission order. -/
theorem generateExportLines_sections (tables : List TableSchema)
    (cm : String → Except String (List RawColumn))
    (dr : String → Except String (List InsRow)) (ts : String) :
    generateExportLines tables cm dr ts =
      expHeader ts ++ ["-- Drop existing tables"]
        ++ (sortTablesByDependencies tables).reverse.map dropLine ++ [""]
        ++ ["-- Create tables"]
        ++ sectionOf (createBlock cm) (sortTablesByDependencies tables)
        ++ ["-- Foreign Key Constraints"]
        ++ sectionOf fkBlock (sortTablesByDependencies tables) ++ [""]
        ++ ["-- Data"] ++ sectionOf (dataBlock dr) (sortTablesByDependencies tables)
        ++ ["-- Reset sequences"]
        ++ sectionOf seqBlock (sortTablesByDependencies tables) ++ [""] := by
  simp only [generateExportLines, foldl_append_blocks, sectionOf_singleton]

/-- Every DROP line of the export script is recognized by `isDropLine`. -/
theorem isDropLine_dropLine (t : TableSchema) : isDropLine (dropLine t) = true := by
  simp [isDropLine, dropLine, String.data_append, List.isPrefixOf]

/-- A column definition line starts with two spaces, hence is not a DROP line. -/
theorem not_isDropLine_columnDef (c : RawColumn) : isDropLine (columnDef c) = false := by
  simp [isDropLine, columnDef, String.data_append, List.isPrefixOf]

/-- The joined column-definition string of a CREATE block starts with its first column
definition, hence is not a DROP line. -/
theorem not_isDropLine_joined (c : RawColumn) (rest : List String) :
    isDropLine (joinSep ",\n" (columnDef c :: rest)) = false := by
  cases rest with
  | nil => simp [joinSep, not_isDropLine_columnDef]
  | cons x xs =>
    simp [joinSep, isDropLine, columnDef, String.data_append, List.isPrefixOf]

/-- No line of a CREATE block is a DROP line. -/
theorem filter_drop_createBlock (cm : String → Except String (List RawColumn))
    (t : TableSchema) : (createBlock cm t).filter isDropLine = [] := by
  unfold createBlock
  cases h : cm t.table_name with
  | error e => simp
  | ok rows =>
    cases rows with
    | nil => simp
    | cons r rs =>
      have h1 : isDropLine ("-- Table: " ++ t.table_name) = false := by
        simp [isDropLine, String.data_append, List.isPrefixOf]
      have h2 : isDropLine ("CREATE TABLE \"" ++ t.table_name ++ "\" (") = false := by
        simp [isDropLine, String.data_append, List.isPrefixOf]
      have h3 := not_isDropLine_joined r (rs.map columnDef ++ pkClause t)
      simp only [List.map_cons, List.cons_append] at h3
      have h4 : isDropLine ");" = false := by decide
      have h5 : isDropLine "" = false := by decide
      simp [List.filter, h1, h2, h3, h4, h5]

/-- No line of a foreign-key constraint block is a DROP line. -/
theorem filter_drop_fkBlock (t : TableSchema) :
    (fkBlock t).filter isDropLine = [] := by
  unfold fkBlock
  rw [List.filter_eq_nil_iff]
  intro a ha
  rcases List.mem_map.1 ha with ⟨c, _, rfl⟩
  simp [fkLine, isDropLine, String.data_append, List.isPrefixOf]

/-- No line of a data block is a DROP line. -/
theorem filter_drop_dataBlock (dr : String → Except String (List InsRow))
    (t : TableSchema) : (dataBlock dr t).filter isDropLine = [] := by
  rw [List.filter_eq_nil_iff]
  intro a ha
  unfold dataBlock at ha
  cases h : dr t.table_name with
  | error e => rw [h] at ha; simp at ha
  | ok rows =>
    rw [h] at ha
    cases rows with
    | nil => simp at ha
    | cons r rs =>
      simp only [List.length_cons, gt_iff_lt, Nat.succ_pos, if_true, List.mem_cons,
        List.mem_append, List.mem_map, List.mem_singleton] at ha
      rcases ha with (rfl | ⟨row, _, rfl⟩) | rfl | h0
      · simp [isDropLine, String.data_append, List.isPrefixOf]
      · simp [insertLine, isDropLine, String.data_append, List.isPrefixOf]
      · decide
      · exact absurd h0 (List.not_mem_nil a)

/-- No line of a sequence-reset block is a DROP line. -/
theorem filter_drop_seqBlock (t : TableSchema) :
    (seqBlock t).filter isDropLine = [] := by
  unfold seqBlock
  rw [List.filter_eq_nil_iff]
  intro a ha
  rcases List.mem_map.1 ha with ⟨c, _, rfl⟩
  simp [isDropLine, String.data_append, List.isPrefixOf, sqS, sq]

/-- A block-wise DROP-free section is DROP-free. -/
theorem filter_drop_sectionOf (f : TableSchema → List String)
    (hf : ∀ t, (f t).filter isDropLine = []) :
    ∀ l : List TableSchema, (sectionOf f l).filter isDropLine = [] := by
  intro l
  induction l with
  | nil => rfl
  | cons t ts ih => simp [sectionOf, List.filter_append, hf, ih]

/-- The DROP statements of the export script are exactly the dependency-sorted tables
in reverse order. -/
theorem export_filter_drop (tables : List TableSchema)
    (cm : String → Except String (List RawColumn))
    (dr : String → Except String (List InsRow)) (ts : String) :
    (generateExportLines tables cm dr ts).filter isDropLine
      = (sortTablesByDependencies tables).reverse.map dropLine := by
  rw [generateExportLines_sections]
  have hmap : (List.map dropLine (sortTablesByDependencies tables).reverse).filter
      isDropLine = List.map dropLine (sortTablesByDependencies tables).reverse :=
    List.filter_eq_self.2 (fun a ha => by
      rcases List.mem_map.1 ha with ⟨u, _, rfl⟩
      exact isDropLine_dropLine u)
  have h1 : List.filter isDropLine ["-- Drop existing tables"] = [] := by decide
  have h2 : List.filter isDropLine [""] = [] := by decide
  have h3 : List.filter isDropLine ["-- Create tables"] = [] := by decide
  have h4 : List.filter isDropLine ["-- Foreign Key Constraints"] = [] := by decide
  have h5 : List.filter isDropLine ["-- Data"] = [] := by decide
  have h6 : List.filter isDropLine ["-- Reset sequences"] = [] := by decide
  have hh : (expHeader ts).filter isDropLine = [] := by
    have hg : isDropLine ("-- Generated: " ++ ts) = false := by
      simp [isDropLine, String.data_append, List.isPrefixOf]
    have hb : isDropLine ("-- Neo" ++ sqS ++ "s Postgres Emulator - Database Export")
        = false := by
      simp [isDropLine, sqS, sq, String.data_append, List.isPrefixOf]
    have h0 : isDropLine "" = false := by decide
    simp [expHeader, List.filter_cons, hg, hb, h0]
  simp only [List.filter_append, hmap, hh, h1, h2, h3, h4, h5, h6,
    filter_drop_sectionOf (createBlock cm) (filter_drop_createBlock cm),
    filter_drop_sectionOf fkBlock filter_drop_fkBlock,
    filter_drop_sectionOf (dataBlock dr) (filter_drop_dataBlock dr),
    filter_drop_sectionOf seqBlock filter_drop_seqBlock]
  simp

/-- C3 counterexample: the claim says the clear-database operation drops tables in the
exact reverse of the dependency-sorted order, dependents first.  With the snapshot
`[a, b]` where `a` has a foreign key to `b`, the sorter yields `[b, a]`, whose reverse
drops `a` then `b`; `handleClearDatabase`, however, reverses the raw store list and
drops `b` first — the referenced table before its dependent. -/
theorem c3_counterexample :
    clearStatements [tblA, tblB] ≠
      ((sortTablesByDependencies [tblA, tblB]).reverse).map
        (fun t => "DROP TABLE IF EXISTS \"" ++ t.table_name ++ "\" CASCADE") ∧
    clearStatements [tblA, tblB] =
      ["DROP TABLE IF EXISTS \"b\" CASCADE", "DROP TABLE IF EXISTS \"a\" CASCADE"] ∧
    "b" ∈ fkReferences tblA ∧ tblA.table_name = "a" ∧ tblB.table_name = "b" := by
  refine ⟨by decide, by decide, by decide, by decide, by decide⟩

/-- C3 (amended): the export script's DROP section drops tables in the exact reverse of
the dependency-sorted order, but the clear-database operation drops the snapshot's
tables in the reverse of their stored (catalog) order, without dependency sorting —
it relies on CASCADE instead. -/
theorem c3_drop_orders_amended (tables : List TableSchema)
    (cm : String → Except String (List RawColumn))
    (dr : String → Except String (List InsRow)) (ts : String) :
    (generateExportLines tables cm dr ts).filter isDropLine
      = ((sortTablesByDependencies tables).reverse).map dropLine ∧
    clearStatements tables =
      (tables.map (fun t =>
        "DROP TABLE IF EXISTS \"" ++ t.table_name ++ "\" CASCADE")).reverse := by
  refine ⟨export_filter_drop tables cm dr ts, ?_⟩
  simp [clearStatements, List.map_reverse]

/-- C8: the export script emits its sections in strict order — header comment with the
generation timestamp, DROP statements for every table in reverse dependency order,
CREATE blocks in forward dependency order, the foreign-key ALTER TABLE constraints,
the row INSERT blocks in forward dependency order, and finally the sequence resets;
moreover the DROP lines are exactly the reverse-sorted tables. -/
theorem c8_export_section_order (tables : List TableSchema)
    (cm : String → Except String (List RawColumn))
    (dr : String → Except String (List InsRow)) (ts : String)
    (h : tables ≠ []) :
    handleExportM tables cm dr ts = some (
      expHeader ts ++ ["-- Drop existing tables"]
        ++ (sortTablesByDependencies tables).reverse.map dropLine ++ [""]
        ++ ["-- Create tables"]
        ++ sectionOf (createBlock cm) (sortTablesByDependencies tables)
        ++ ["-- Foreign Key Constraints"]
        ++ sectionOf fkBlock (sortTablesByDependencies tables) ++ [""]
        ++ ["-- Data"] ++ sectionOf (dataBlock dr) (sortTablesByDependencies tables)
        ++ ["-- Reset sequences"]
        ++ sectionOf seqBlock (sortTablesByDependencies tables) ++ [""]) ∧
    (generateExportLines tables cm dr ts).filter isDropLine
      = ((sortTablesByDependencies tables).reverse).map dropLine := by
  constructor
  · rw [handleExportM, if_neg (by simpa using h)]
    rw [generateExportLines_sections]
  · exact export_filter_drop tables cm dr ts

/-- C8 witness: the sections equation evaluated on the one-table snapshot `[b]` with
concrete column-metadata and data oracles. -/
theorem c8_export_section_order_witness :
    ([tblB] : List TableSchema) ≠ [] ∧
    handleExportM [tblB] cmW drW "2026-01-01" = some (
      expHeader "2026-01-01" ++ ["-- Drop existing tables"]
        ++ (sortTablesByDependencies [tblB]).reverse.map dropLine ++ [""]
        ++ ["-- Create tables"]
        ++ sectionOf (createBlock cmW) (sortTablesByDependencies [tblB])
        ++ ["-- Foreign Key Constraints"]
        ++ sectionOf fkBlock (sortTablesByDependencies [tblB]) ++ [""]
        ++ ["-- Data"] ++ sectionOf (dataBlock drW) (sortTablesByDependencies [tblB])
        ++ ["-- Reset sequences"]
        ++ sectionOf seqBlock (sortTablesByDependencies [tblB]) ++ [""]) :=
  ⟨by decide,
   (c8_export_section_order [tblB] cmW drW "2026-01-01" (by decide)).1⟩

/-- A pass over tables with no foreign-key references places all of them. -/
theorem passRev_all_placed : ∀ (rev : List TableSchema) (added : List String),
    (∀ t ∈ rev, fkReferences t = []) →
    (passRev rev added).1 = rev ∧ (passRev rev added).2.1 = [] := by
  intro rev
  induction rev with
  | nil => intro added _; exact ⟨rfl, rfl⟩
  | cons t rest ih =>
    intro added h
    have he : eligible t added = true := by
      simp [eligible, h t (List.mem_cons_self t rest), List.isEmpty]
    have hr := ih (t.table_name :: added) (fun u hu => h u (List.mem_cons_of_mem t hu))
    simp [passRev, he, hr.1, hr.2]

/-- The sort loop halts immediately once nothing remains. -/
theorem sortLoop_empty_remaining : ∀ (fuel : Nat) (sorted : List TableSchema)
    (added : List String), sortLoop fuel sorted [] added = (sorted, []) := by
  intro fuel
  cases fuel <;> intro sorted added <;> simp [sortLoop]

/-- C9: on any input in which no table has a foreign-key column, the dependency sorter
returns the input list exactly reversed — each placement pass scans the remaining
tables from the last index down to the first, so dependency-free tables come out in
reverse input order, not input order. -/
theorem c9_sorter_reverses_fk_free (tables : List TableSchema)
    (h : ∀ t ∈ tables, ∀ c ∈ t.columns, c.is_foreign_key = false) :
    sortTablesByDependencies tables = tables.reverse := by
  have hrefs : ∀ t ∈ tables.reverse, fkReferences t = [] := by
    intro t ht
    have ht' := List.mem_reverse.1 ht
    unfold fkReferences
    have hf : t.columns.filter (fun c => c.is_foreign_key && jsTruthyOpt c.foreign_table)
        = [] := by
      rw [List.filter_eq_nil_iff]
      intro c hc
      simp [h t ht' c hc]
    rw [hf]
    rfl
  cases tables with
  | nil => rfl
  | cons t ts =>
    have hp := passRev_all_placed (t :: ts).reverse [] hrefs
    have hlen : 2 * (t :: ts).length = Nat.succ (2 * ts.length + 1) := by
      simp [List.length_cons]
      omega
    unfold sortTablesByDependencies sortResult
    rw [hlen]
    simp only [List.reverse_cons] at hp
    simp [sortLoop, hp.1, hp.2, sortLoop_empty_remaining]

/-- C9 witness: the two-table foreign-key-free snapshot `[b, c]` sorts to `[c, b]`. -/
theorem c9_sorter_reverses_fk_free_witness :
    (∀ t ∈ [tblB, tblC], ∀ c ∈ t.columns, c.is_foreign_key = false) ∧
    sortTablesByDependencies [tblB, tblC] = [tblB, tblC].reverse :=
  ⟨by decide, c9_sorter_reverses_fk_free [tblB, tblC] (by decide)⟩

/-- On a healthy catalog every per-table assembly step resolves, producing the
catalog-derived table record. -/
theorem buildTable_catalog (c : PgCatalog) (n : String) :
    buildTable (engineOfCatalog c) n = .ok (catTable c n) := rfl

/-- Mapping a succeeding monadic builder over a list of names resolves to the mapped
list. -/
theorem mapM_ok (f : String → Except String TableSchema) (g : String → TableSchema)
    (hf : ∀ n, f n = .ok (g n)) :
    ∀ names : List String, names.mapM f = .ok (names.map g) := by
  intro names
  induction names with
  | nil => rfl
  | cons n rest ih =>
    rw [List.mapM_cons, hf n, ih]
    rfl

/-- A refresh against a healthy catalog publishes the catalog-derived tables and the
full constraint list. -/
theorem refresh_catalog (c : PgCatalog) (st : StoreState) :
    refreshSchemaM (engineOfCatalog c) st =
      { st with tables := c.tabs.map (catTable c), foreignKeys := c.fks } := by
  unfold refreshSchemaM
  rw [show (engineOfCatalog c).listTables = Except.ok c.tabs from rfl]
  dsimp only
  rw [mapM_ok (buildTable (engineOfCatalog c)) (catTable c) (buildTable_catalog c) c.tabs]
  rfl

/-- C7: in every snapshot `refresh()` assembles from one catalog state, every column
flagged `is_foreign_key = true` has a matching ForeignKeyEdge in the same snapshot
whose source table is the column's table and whose source column is the column — the
flag is derived from the per-table restriction of the same constraint list the
snapshot's edge list is read from. -/
theorem c7_fk_flag_consistency (c : PgCatalog) (st : StoreState) (t : TableSchema)
    (col : TableColumn)
    (ht : t ∈ (refreshSchemaM (engineOfCatalog c) st).tables)
    (hc : col ∈ t.columns) (hfk : col.is_foreign_key = true) :
    ∃ e ∈ (refreshSchemaM (engineOfCatalog c) st).foreignKeys,
      e.source_table = t.table_name ∧ e.source_column = col.column_name := by
  rw [refresh_catalog] at ht ⊢
  simp only [List.mem_map] at ht
  rcases ht with ⟨n, hn, rfl⟩
  simp only [catTable, List.mem_map] at hc
  rcases hc with ⟨rc, hrc, rfl⟩
  simp only [buildColumn, Option.isSome_iff_exists] at hfk
  rcases hfk with ⟨row, hrow⟩
  have hmem : row ∈ (catFkRows c n).reverse ∧
      (row.column_name == rc.column_name) = true := by
    have h1 := List.mem_of_find?_eq_some hrow
    have h2 := List.find?_some hrow
    exact ⟨h1, h2⟩
  rcases hmem with ⟨hmemr, hcolname⟩
  rw [List.mem_reverse] at hmemr
  unfold catFkRows at hmemr
  simp only [List.mem_map, List.mem_filter] at hmemr
  rcases hmemr with ⟨e, ⟨hef, hsrc⟩, rfl⟩
  refine ⟨e, hef, ?_⟩
  constructor
  · exact eq_of_beq hsrc
  · simpa [buildColumn] using eq_of_beq hcolname

/-- C7 witness: on the two-table catalog, the `posts.user_id` column is flagged and the
matching edge exists in the same snapshot. -/
theorem c7_fk_flag_consistency_witness :
    catTable catalogW "posts" ∈
      (refreshSchemaM (engineOfCatalog catalogW) emptyStore).tables ∧
    colUserIdW ∈ (catTable catalogW "posts").columns ∧
    colUserIdW.is_foreign_key = true ∧
    ∃ e ∈ (refreshSchemaM (engineOfCatalog catalogW) emptyStore).foreignKeys,
      e.source_table = (catTable catalogW "posts").table_name ∧
      e.source_column = colUserIdW.column_name :=
  ⟨by decide, by decide, by decide,
   c7_fk_flag_consistency catalogW emptyStore (catTable catalogW "posts") colUserIdW
     (by decide) (by decide) (by decide)⟩

/-- `refreshSchema` never touches the query history. -/
theorem refresh_history (e : Engine) (st : StoreState) :
    (refreshSchemaM e st).queryHistory = st.queryHistory := by
  unfold refreshSchemaM
  cases e.listTables with
  | error a => rfl
  | ok names =>
    dsimp only
    cases names.mapM (buildTable e) with
    | error a => rfl
    | ok tabs =>
      dsimp only
      cases e.allFks with
      | error a => rfl
      | ok fks => rfl

/-- Truncating after a prepend absorbs an inner truncation. -/
theorem take_absorb (A : List QueryHistoryItem) (x : QueryHistoryItem)
    (l : List QueryHistoryItem) (n : Nat) :
    (A ++ (x :: l).take n).take n = (A ++ x :: l).take n := by
  rw [List.take_append_eq_append_take, List.take_append_eq_append_take,
    List.take_take, Nat.min_eq_left (Nat.sub_le n A.length)]

/-- One `executeQuery` call prepends exactly one history item — successful with the
row count, or failed with the error message — and truncates to the cap. -/
theorem executeQuery_history (exec : String → Except String Nat) (e : Engine)
    (st : StoreState) (q : String) :
    (executeQueryM exec e st q).store.queryHistory =
      (mkHistoryItem q (exec q) :: st.queryHistory).take MAX_HISTORY_ITEMS := by
  cases hx : exec q with
  | ok n =>
    by_cases hd : isDDL q
    · simp [executeQueryM, hx, hd, refresh_history, addToHistory]
    · simp [executeQueryM, hx, hd, addToHistory]
  | error msg => simp [executeQueryM, hx, addToHistory]

/-- History effect of the sequential statement loop: every executed (non-blank)
statement contributes one item, newest first, with the whole log truncated to the
cap. -/
theorem run_history (exec : String → Except String Nat) (e : Engine) :
    ∀ (l : List String) (st : StoreState),
    st.queryHistory.length ≤ MAX_HISTORY_ITEMS →
    (runStatementsM exec e st l).store.queryHistory =
      (((l.filter (fun s => !(jsTrim s == ""))).map
          (fun s => mkHistoryItem (s ++ ";") (exec (s ++ ";")))).reverse
        ++ st.queryHistory).take MAX_HISTORY_ITEMS := by
  intro l
  induction l with
  | nil =>
    intro st hlen
    simp [runStatementsM, List.take_of_length_le hlen]
  | cons s rest ih =>
    intro st hlen
    by_cases h : jsTrim s = ""
    · simp [runStatementsM, h, ih st hlen]
    · have hstore : (runStatementsM exec e st (s :: rest)).store =
          (runStatementsM exec e (executeQueryM exec e st (s ++ ";")).store rest).store := by
        simp only [runStatementsM, h, if_neg]
        cases (executeQueryM exec e st (s ++ ";")).result <;> simp
      rw [hstore]
      have hq := executeQuery_history exec e st (s ++ ";")
      have hlen2 : (executeQueryM exec e st (s ++ ";")).store.queryHistory.length ≤
          MAX_HISTORY_ITEMS := by
        rw [hq]
        exact List.length_take_le _ _
      rw [ih _ hlen2, hq]
      have hfil : (s :: rest).filter (fun u => !(jsTrim u == "")) =
          s :: rest.filter (fun u => !(jsTrim u == "")) := by
        have hb : (jsTrim s == "") = false := by
          exact beq_eq_false_iff_ne.2 h
        simp [List.filter, hb]
      rw [hfil]
      rw [take_absorb]
      simp

/-- C10: every statement executed during a file import goes through `executeQuery`
exactly as a manual run does — with a terminating semicolon appended — and each
execution (success or failure) prepends a QueryHistoryItem carrying the success flag
and the row count or error message; the resulting history is truncated to at most 50
entries, with the oldest (tail) entries evicted. -/
theorem c10_import_history (exec : String → Except String Nat) (e : Engine)
    (st : StoreState) (sqlFileText : String)
    (hlen : st.queryHistory.length ≤ MAX_HISTORY_ITEMS) :
    (handleImportM exec e st sqlFileText).store.queryHistory =
      (((importStatements sqlFileText).map
          (fun s => mkHistoryItem (s ++ ";") (exec (s ++ ";")))).reverse
        ++ st.queryHistory).take MAX_HISTORY_ITEMS ∧
    (handleImportM exec e st sqlFileText).store.queryHistory.length ≤
      MAX_HISTORY_ITEMS := by
  have h1 : (handleImportM exec e st sqlFileText).store.queryHistory =
      (runStatementsM exec e st (splitStatements sqlFileText)).store.queryHistory := by
    unfold handleImportM
    exact refresh_history e _
  have h2 := run_history exec e (splitStatements sqlFileText) st hlen
  constructor
  · rw [h1, h2]
    rfl
  · rw [h1, h2]
    exact List.length_take_le _ _

/-- C10 witness: importing the one-statement file `SELECT 1;` into an empty store
records one successful history item for `SELECT 1;` (the splitter output plus the
re-appended semicolon). -/
theorem c10_import_history_witness :
    emptyStore.queryHistory.length ≤ MAX_HISTORY_ITEMS ∧
    ((handleImportM execAllOk emptyEngine emptyStore "SELECT 1;").store.queryHistory =
      (((importStatements "SELECT 1;").map
          (fun s => mkHistoryItem (s ++ ";") (execAllOk (s ++ ";")))).reverse
        ++ emptyStore.queryHistory).take MAX_HISTORY_ITEMS ∧
    (handleImportM execAllOk emptyEngine emptyStore
        "SELECT 1;").store.queryHistory.length ≤ MAX_HISTORY_ITEMS) :=
  ⟨by decide,
   c10_import_history execAllOk emptyEngine emptyStore "SELECT 1;" (by decide)⟩

/-- C6: a doubled quote of the same type seen while inside a string is treated as an
escaped quote and does not close the string: both characters are copied into the
current statement, the scan advances by two, and `inString` stays set in the
continuation state.  Consequently the input with the doubled quote splits into exactly
one statement with the doubled quote preserved literally. -/
theorem c6_doubled_quote :
    (∀ (st : ScanSt) (rest : List Char) (q : Char), st.inString = true →
      st.prev ≠ some bs → st.stringChar = q → (q = sq ∨ q = dq) →
      scanAux (q :: q :: rest) st =
        scanAux rest { st with current := st.current ++ [q, q], prev := some q }) ∧
    splitStatements ("SELECT " ++ String.mk [sq] ++ "it" ++ String.mk [sq, sq] ++
        "s fine" ++ String.mk [sq] ++ ";") =
      ["SELECT " ++ String.mk [sq] ++ "it" ++ String.mk [sq, sq] ++ "s fine" ++
        String.mk [sq]] := by
  constructor
  · intro st rest q hin hprev hsc hq
    subst hsc
    simp [scanAux, hq, hprev, hin]
  · decide

/-- C6 witness: the doubled-quote step applied at a concrete in-string state, the
escaped quote copied and the string left open. -/
theorem c6_doubled_quote_witness :
    (stW.inString = true ∧ stW.prev ≠ some bs ∧ stW.stringChar = sq ∧
      (sq = sq ∨ sq = dq)) ∧
    scanAux (sq :: sq :: [';']) stW =
      scanAux [';'] { stW with current := stW.current ++ [sq, sq], prev := some sq } :=
  ⟨⟨rfl, by decide, rfl, Or.inl rfl⟩,
   c6_doubled_quote.1 stW [';'] sq rfl (by decide) rfl (Or.inl rfl)⟩

/-- Rebuilding a string from its characters is the identity. -/
theorem string_mk_data (s : String) : String.mk s.data = s := rfl

/-- The scanning loop only appends to the emitted-statements accumulator: a prepended
accumulator prefix rides along untouched, all other state components unchanged. -/
theorem scan_stmts_frame : ∀ (n : Nat) (xs : List Char), xs.length ≤ n →
    ∀ (S1 S2 : List String) (C : List Char) (b : Bool) (sc : Char) (p : Option Char),
    scanAux xs ⟨S1 ++ S2, C, b, sc, p⟩ =
      { scanAux xs ⟨S2, C, b, sc, p⟩ with
        stmts := S1 ++ (scanAux xs ⟨S2, C, b, sc, p⟩).stmts } := by
  intro n
  induction n with
  | zero =>
    intro xs hx S1 S2 C b sc p
    have hxe : xs = [] := List.eq_nil_of_length_eq_zero (Nat.le_zero.1 hx)
    subst hxe
    simp [scanAux]
  | succ n ih =>
    intro xs hx S1 S2 C b sc p
    match xs with
    | [] => simp [scanAux]
    | [c] =>
      simp only [scanAux]
      split_ifs <;> simp
    | c :: c2 :: rest =>
      have h1 : (c2 :: rest).length ≤ n := by
        simpa using Nat.succ_le_succ_iff.1 (by simpa using hx)
      have h2 : rest.length ≤ n := Nat.le_trans (Nat.le_succ _) h1
      simp only [scanAux]
      split_ifs <;>
        first
          | exact ih _ h1 S1 S2 _ _ _ _
          | exact ih _ h2 S1 S2 _ _ _ _
          | (rw [List.append_assoc]; exact ih _ h1 S1 (S2 ++ emit C) _ _ _ _)

/-- The scanning loop is insensitive to the stale `stringChar` value while outside a
string, and to the previous character beyond its being a backslash: two runs differing
only in those components stay in lockstep. -/
theorem scan_state_equiv : ∀ (n : Nat) (xs : List Char), xs.length ≤ n →
    ∀ (S : List String) (C : List Char) (b : Bool) (sc1 sc2 : Char)
      (p1 p2 : Option Char),
    (b = true → sc1 = sc2) → ((p1 = some bs) ↔ (p2 = some bs)) →
    (scanAux xs ⟨S, C, b, sc1, p1⟩).stmts = (scanAux xs ⟨S, C, b, sc2, p2⟩).stmts ∧
    (scanAux xs ⟨S, C, b, sc1, p1⟩).current =
      (scanAux xs ⟨S, C, b, sc2, p2⟩).current ∧
    (scanAux xs ⟨S, C, b, sc1, p1⟩).inString =
      (scanAux xs ⟨S, C, b, sc2, p2⟩).inString ∧
    ((scanAux xs ⟨S, C, b, sc1, p1⟩).inString = true →
      (scanAux xs ⟨S, C, b, sc1, p1⟩).stringChar =
        (scanAux xs ⟨S, C, b, sc2, p2⟩).stringChar) ∧
    (((scanAux xs ⟨S, C, b, sc1, p1⟩).prev = some bs) ↔
      ((scanAux xs ⟨S, C, b, sc2, p2⟩).prev = some bs)) := by
  intro n
  induction n with
  | zero =>
    intro xs hx S C b sc1 sc2 p1 p2 hsc hp
    have hxe : xs = [] := List.eq_nil_of_length_eq_zero (Nat.le_zero.1 hx)
    subst hxe
    exact ⟨rfl, rfl, rfl, hsc, hp⟩
  | succ n ih =>
    intro xs hx S C b sc1 sc2 p1 p2 hsc hp
    match xs with
    | [] => exact ⟨rfl, rfl, rfl, hsc, hp⟩
    | [c] =>
      by_cases hq : c = sq ∨ c = dq
      · by_cases hpb : p1 = some bs
        · have hpb2 : p2 = some bs := hp.1 hpb
          have hns : ¬c = ';' := by rcases hq with h | h <;> subst h <;> decide
          cases b with
          | true =>
            have hs12 : sc1 = sc2 := hsc rfl
            subst hs12
            simp [scanAux, hq, hpb, hpb2, hns]
          | false => simp [scanAux, hq, hpb, hpb2, hns, hsc]
        · have hpb2 : p2 ≠ some bs := fun h => hpb (hp.2 h)
          cases b with
          | true =>
            have hs12 : sc1 = sc2 := hsc rfl
            subst hs12
            simp [scanAux, hq, hpb, hpb2]
          | false => simp [scanAux, hq, hpb, hpb2]
      · by_cases hsemi : c = ';' ∧ (!b) = true
        · have hb : b = false := by simpa using hsemi.2
          subst hb
          have hc : c = ';' := hsemi.1
          subst hc
          have hqf : ¬(';' = sq ∨ ';' = dq) := by decide
          simp [scanAux, hqf]
        · have hsemi2 : ¬(c = ';' ∧ b = false) := by simpa using hsemi
          simp [scanAux, hq, hsemi2, hp]
          exact hsc
    | c :: c2 :: rest =>
      have h1 : (c2 :: rest).length ≤ n := by
        simpa using Nat.succ_le_succ_iff.1 (by simpa using hx)
      by_cases hq : c = sq ∨ c = dq
      · by_cases hpb : p1 = some bs
        · have hpb2 : p2 = some bs := hp.1 hpb
          have hns : ¬c = ';' := by rcases hq with h | h <;> subst h <;> decide
          cases b with
          | true =>
            have hs12 : sc1 = sc2 := hsc rfl
            subst hs12
            simp [scanAux, hq, hpb, hpb2, hns]
          | false =>
            simp only [scanAux,
              if_neg (by simp [hpb] : ¬((c = sq ∨ c = dq) ∧ p1 ≠ some bs)),
              if_neg (by simp [hpb2] : ¬((c = sq ∨ c = dq) ∧ p2 ≠ some bs)),
              if_neg (by simp [hns] : ¬(c = ';' ∧ (!false) = true))]
            exact ih _ h1 S (C ++ [c]) false sc1 sc2 (some c) (some c)
              (by intro h; cases h) Iff.rfl
        · have hpb2 : p2 ≠ some bs := fun h => hpb (hp.2 h)
          cases b with
          | true =>
            have hs12 : sc1 = sc2 := hsc rfl
            subst hs12
            simp [scanAux, hq, hpb, hpb2]
          | false =>
            simp only [scanAux,
              if_pos (⟨hq, hpb⟩ : (c = sq ∨ c = dq) ∧ p1 ≠ some bs),
              if_pos (⟨hq, hpb2⟩ : (c = sq ∨ c = dq) ∧ p2 ≠ some bs)]
            simp only [Bool.not_false, if_pos rfl]
            exact ih _ h1 S (C ++ [c]) true c c (some c) (some c)
              (fun _ => rfl) Iff.rfl
      · by_cases hsemi : c = ';' ∧ (!b) = true
        · have hb : b = false := by simpa using hsemi.2
          subst hb
          simp only [scanAux, if_neg (by simp [hq] : ¬((c = sq ∨ c = dq) ∧ p1 ≠ some bs)),
            if_neg (by simp [hq] : ¬((c = sq ∨ c = dq) ∧ p2 ≠ some bs)),
            if_pos hsemi]
          exact ih _ h1 (S ++ emit C) [] false sc1 sc2 (some c) (some c)
            (by intro h; cases h) Iff.rfl
        · simp only [scanAux, if_neg (by simp [hq] : ¬((c = sq ∨ c = dq) ∧ p1 ≠ some bs)),
            if_neg (by simp [hq] : ¬((c = sq ∨ c = dq) ∧ p2 ≠ some bs)),
            if_neg hsemi]
          exact ih _ h1 S (C ++ [c]) b sc1 sc2 (some c) (some c) hsc Iff.rfl

/-- The scanner only ever assigns quote characters to `stringChar`, so a non-semicolon
`stringChar` stays non-semicolon. -/
theorem scan_stringChar_ne : ∀ (n : Nat) (xs : List Char), xs.length ≤ n →
    ∀ (st : ScanSt), st.stringChar ≠ ';' → (scanAux xs st).stringChar ≠ ';' := by
  intro n
  induction n with
  | zero =>
    intro xs hx st hne
    have hxe : xs = [] := List.eq_nil_of_length_eq_zero (Nat.le_zero.1 hx)
    subst hxe
    exact hne
  | succ n ih =>
    intro xs hx st hne
    match xs with
    | [] => exact hne
    | [c] =>
      simp only [scanAux]
      split_ifs with h1 h2 h3 <;>
        first
          | (rcases h1.1 with h | h <;> subst h <;>
              first
                | exact (by decide : sq ≠ ';')
                | exact (by decide : dq ≠ ';'))
          | exact hne
    | c :: c2 :: rest =>
      have h1 : (c2 :: rest).length ≤ n := by
        simpa using Nat.succ_le_succ_iff.1 (by simpa using hx)
      have h2 : rest.length ≤ n := Nat.le_trans (Nat.le_succ _) h1
      simp only [scanAux]
      split_ifs with ha hb hc hd <;>
        first
          | (apply ih _ h1
             rcases ha.1 with h | h <;> subst h <;>
               first
                 | exact (by decide : sq ≠ ';')
                 | exact (by decide : dq ≠ ';'))
          | exact ih _ h1 _ hne
          | exact ih _ h2 _ hne

/-- A top-level semicolon emits the trimmed current statement and resets the
accumulator. -/
theorem scan_semi : ∀ (ys : List Char) (st : ScanSt), st.inString = false →
    scanAux (';' :: ys) st =
      scanAux ys ⟨st.stmts ++ emit st.current, [], false, st.stringChar, some ';'⟩ := by
  intro ys st h
  have hq : ¬((';' : Char) = sq ∨ (';' : Char) = dq) := by decide
  cases ys with
  | nil => simp [scanAux, hq, h]
  | cons y ys' => simp [scanAux, hq, h]

/-- Scanning a scan-safe statement from any out-of-string state with a non-backslash
previous character copies the statement verbatim, emits nothing, and ends outside any
string with a non-semicolon `stringChar`. -/
theorem scan_statement (s : String) (hs : scanSafe s = true) (S : List String)
    (sc : Char) (p : Option Char) (hp : p ≠ some bs) (hsc : sc ≠ ';') :
    (scanAux s.data ⟨S, [], false, sc, p⟩).stmts = S ∧
    (scanAux s.data ⟨S, [], false, sc, p⟩).current = s.data ∧
    (scanAux s.data ⟨S, [], false, sc, p⟩).inString = false ∧
    (scanAux s.data ⟨S, [], false, sc, p⟩).stringChar ≠ ';' := by
  simp only [scanSafe, initScan, Bool.and_eq_true, beq_iff_eq] at hs
  have hframe := scan_stmts_frame s.data.length s.data (Nat.le_refl _) S []
    [] false sc p
  simp only [List.append_nil] at hframe
  have hequiv := scan_state_equiv s.data.length s.data (Nat.le_refl _) [] []
    false ' ' sc none p (by intro h; cases h)
    (by constructor <;> intro h <;> [cases h; exact absurd h hp])
  have hch := scan_stringChar_ne s.data.length s.data (Nat.le_refl _)
    ⟨S, [], false, sc, p⟩ hsc
  refine ⟨?_, ?_, ?_, hch⟩
  · rw [hframe]
    have : (scanAux s.data ⟨[], [], false, sc, p⟩).stmts = [] := by
      rw [← hequiv.1]
      exact hs.1.1
    simp [this]
  · rw [hframe]
    rw [← hequiv.2.1]
    exact hs.1.2
  · rw [hframe]
    rw [← hequiv.2.2.1]
    exact hs.2

/-- Splitting the scan at a top-level semicolon boundary: scanning `xs` followed by a
semicolon and more text equals scanning `xs` first, then the rest — the doubled-quote
lookahead never crosses the boundary because `stringChar` is never a semicolon. -/
theorem scan_append_semi : ∀ (n : Nat) (xs : List Char), xs.length ≤ n →
    ∀ (ys : List Char) (st : ScanSt), st.stringChar ≠ ';' →
    scanAux (xs ++ ';' :: ys) st = scanAux (';' :: ys) (scanAux xs st) := by
  intro n
  induction n with
  | zero =>
    intro xs hx ys st hne
    have hxe : xs = [] := List.eq_nil_of_length_eq_zero (Nat.le_zero.1 hx)
    subst hxe
    rfl
  | succ n ih =>
    intro xs hx ys st hne
    match xs with
    | [] => rfl
    | [c] =>
      show scanAux (c :: ';' :: ys) st = scanAux (';' :: ys) (scanAux [c] st)
      simp only [scanAux]
      split_ifs <;>
        first
          | rfl
          | (rename_i hlook
             exact absurd hlook.symm hne)
    | c :: c2 :: rest =>
      have h1 : (c2 :: rest).length ≤ n := by
        simpa using Nat.succ_le_succ_iff.1 (by simpa using hx)
      have h2 : rest.length ≤ n := Nat.le_trans (Nat.le_succ _) h1
      show scanAux (c :: c2 :: (rest ++ ';' :: ys)) st =
        scanAux (';' :: ys) (scanAux (c :: c2 :: rest) st)
      simp only [scanAux]
      split_ifs with ha hb hc hd <;>
        first
          | exact ih _ h1 ys _ hne
          | exact ih _ h2 ys _ hne
          | (apply ih _ h1 ys
             rcases ha.1 with h | h <;> subst h <;>
               first
                 | exact (by decide : sq ≠ ';')
                 | exact (by decide : dq ≠ ';'))

/-- Scanning a canonical multi-statement text (scan-safe statements, each terminated by
a semicolon) from any clean state emits exactly the trimmed statements, in order, and
ends with an empty current statement outside any string. -/
theorem scan_joinSemi : ∀ (stmts : List String) (S : List String) (sc : Char)
    (p : Option Char), sc ≠ ';' → p ≠ some bs →
    (∀ s ∈ stmts, jsTrim s ≠ "" ∧ scanSafe s = true) →
    (scanAux (joinSemi stmts).data ⟨S, [], false, sc, p⟩).stmts =
      S ++ stmts.map jsTrim ∧
    (scanAux (joinSemi stmts).data ⟨S, [], false, sc, p⟩).current = [] ∧
    (scanAux (joinSemi stmts).data ⟨S, [], false, sc, p⟩).inString = false := by
  intro stmts
  induction stmts with
  | nil =>
    intro S sc p hsc hp h
    exact ⟨by simp [joinSemi, scanAux], rfl, rfl⟩
  | cons s rest ihst =>
    intro S sc p hsc hp h
    have hmem : s ∈ s :: rest := List.mem_cons_self s rest
    have hdata : (joinSemi (s :: rest)).data =
        s.data ++ (';' :: (joinSemi rest).data) := by
      show ((s ++ ";") ++ joinSemi rest).data = _
      rw [String.data_append, String.data_append]
      simp
    rw [hdata]
    rw [scan_append_semi s.data.length s.data (Nat.le_refl _) _ _ hsc]
    obtain ⟨h1, h2, h3, h4⟩ := scan_statement s (h s hmem).2 S sc p hp hsc
    rw [scan_semi ((joinSemi rest).data) _ h3]
    rw [h1, h2]
    have hemit : emit s.data = [jsTrim s] := by
      simp [emit, string_mk_data, (h s hmem).1]
    rw [hemit]
    have hrec := ihst (S ++ [jsTrim s])
      (scanAux s.data ⟨S, [], false, sc, p⟩).stringChar (some ';') h4 (by decide)
      (fun u hu => h u (List.mem_cons_of_mem s hu))
    refine ⟨?_, hrec.2.1, hrec.2.2⟩
    rw [hrec.1]
    simp

/-- C5: splitting a canonical multi-statement SQL text — N scan-safe non-blank
statements, each terminated by a top-level semicolon, with no comment lines — returns
exactly the N trimmed statements in order, none of them empty; in particular a
semicolon inside a quoted literal is preserved within its statement, as on the spec's
example input. -/
theorem c5_split_roundtrip (stmts : List String)
    (h : ∀ s ∈ stmts, jsTrim s ≠ "" ∧ scanSafe s = true)
    (hrc : removeCommentLines (joinSemi stmts) = joinSemi stmts) :
    splitStatements (joinSemi stmts) = stmts.map jsTrim ∧
    (splitStatements (joinSemi stmts)).length = stmts.length ∧
    (∀ u ∈ splitStatements (joinSemi stmts), u ≠ "") ∧
    splitStatements ("INSERT INTO t VALUES (" ++ String.mk [sq] ++ "a;b" ++
        String.mk [sq] ++ ");") =
      ["INSERT INTO t VALUES (" ++ String.mk [sq] ++ "a;b" ++ String.mk [sq] ++ ")"]
    := by
  have hmain : splitStatements (joinSemi stmts) = stmts.map jsTrim := by
    unfold splitStatements
    rw [hrc]
    unfold splitSqlText
    simp only [initScan]
    obtain ⟨h1, h2, _⟩ := scan_joinSemi stmts [] ' ' none (by decide) (by decide) h
    rw [h1, h2]
    simp [emit, jsTrim, trimChars]
  refine ⟨hmain, ?_, ?_, by decide⟩
  · rw [hmain]
    exact List.length_map stmts jsTrim
  · rw [hmain]
    intro u hu
    rcases List.mem_map.1 hu with ⟨s, hs, rfl⟩
    exact (h s hs).1

/-- C5 witness: the canonical two-statement input, one statement containing a quoted
semicolon, splits into exactly those two statements. -/
theorem c5_split_roundtrip_witness :
    (∀ s ∈ stmtsW, jsTrim s ≠ "" ∧ scanSafe s = true) ∧
    removeCommentLines (joinSemi stmtsW) = joinSemi stmtsW ∧
    (splitStatements (joinSemi stmtsW) = stmtsW.map jsTrim ∧
     (splitStatements (joinSemi stmtsW)).length = stmtsW.length ∧
     (∀ u ∈ splitStatements (joinSemi stmtsW), u ≠ "") ∧
     splitStatements ("INSERT INTO t VALUES (" ++ String.mk [sq] ++ "a;b" ++
         String.mk [sq] ++ ");") =
       ["INSERT INTO t VALUES (" ++ String.mk [sq] ++ "a;b" ++ String.mk [sq] ++ ")"]) :=
  ⟨by decide, by decide, c5_split_roundtrip stmtsW (by decide) (by decide)⟩

/-- The boolean placement test, as a proposition: every reference already placed or a
self reference. -/
theorem eligible_iff (t : TableSchema) (added : List String) :
    eligible t added = true ↔
      ∀ r ∈ fkReferences t, r ∈ added ∨ r = t.table_name := by
  simp [eligible, depsResolved, List.all_eq_true, List.isEmpty_iff]
  intro h r hr
  rw [h] at hr
  cases hr

/-- Placement is monotone in the placed-name set. -/
theorem eligible_mono (t : TableSchema) (added added' : List String)
    (hsub : ∀ x ∈ added, x ∈ added') (he : eligible t added = true) :
    eligible t added' = true := by
  rw [eligible_iff] at he ⊢
  intro r hr
  rcases he r hr with h | h
  · exact Or.inl (hsub r h)
  · exact Or.inr h

/-- The name set a pass returns: the names it placed (latest first) on top of the
incoming set. -/
theorem passRev_added : ∀ (rev : List TableSchema) (added : List String),
    (passRev rev added).2.2 =
      ((passRev rev added).1.map (fun t => t.table_name)).reverse ++ added := by
  intro rev
  induction rev with
  | nil => intro added; simp [passRev]
  | cons t rest ih =>
    intro added
    by_cases he : eligible t added
    · simp [passRev, he, ih (t.table_name :: added)]
    · simp [passRev, he, ih added]

/-- The tables a pass keeps form a sublist of its input. -/
theorem passRev_kept_sublist : ∀ (rev : List TableSchema) (added : List String),
    List.Sublist (passRev rev added).2.1 rev := by
  intro rev
  induction rev with
  | nil => intro added; simp [passRev]
  | cons t rest ih =>
    intro added
    by_cases he : eligible t added
    · simp only [passRev, he, if_pos]
      exact (ih (t.table_name :: added)).cons t
    · simp only [passRev, he, if_neg, not_false_iff]
      exact (ih added).cons₂ t

/-- A pass only partitions its input: placed plus kept is a permutation of it. -/
theorem passRev_perm : ∀ (rev : List TableSchema) (added : List String),
    List.Perm ((passRev rev added).1 ++ (passRev rev added).2.1) rev := by
  intro rev
  induction rev with
  | nil => intro added; simp [passRev]
  | cons t rest ih =>
    intro added
    by_cases he : eligible t added
    · simp only [passRev, he, if_pos, List.cons_append]
      exact (ih (t.table_name :: added)).cons t
    · simp only [passRev, he, if_neg, not_false_iff]
      exact List.perm_middle.trans ((ih added).cons t)

/-- Every table a pass places had all its references placed at that moment: the placed
list is a placement chain over the incoming name set. -/
theorem passRev_chain : ∀ (rev : List TableSchema) (added : List String),
    GoodChain added (passRev rev added).1 := by
  intro rev
  induction rev with
  | nil => intro added; exact trivial
  | cons t rest ih =>
    intro added
    by_cases he : eligible t added
    · simp only [passRev, he, if_pos]
      exact ⟨(eligible_iff t added).1 he, ih (t.table_name :: added)⟩
    · simp only [passRev, he, if_neg, not_false_iff]
      exact ih added

/-- A table eligible at the start of a pass is never kept: the pass places it (the
placed-name set only grows during the pass). -/
theorem passRev_not_kept : ∀ (rev : List TableSchema) (added : List String)
    (t : TableSchema), t ∈ rev → eligible t added = true →
    t ∉ (passRev rev added).2.1 := by
  intro rev
  induction rev with
  | nil => intro added t ht _; cases ht
  | cons u rest ih =>
    intro added t ht he
    by_cases hu : eligible u added
    · simp only [passRev, hu, if_pos]
      by_cases htr : t ∈ rest
      · exact ih (u.table_name :: added) t htr
          (eligible_mono t added _ (fun x hx => List.mem_cons_of_mem _ hx) he)
      · intro hk
        exact htr ((passRev_kept_sublist rest (u.table_name :: added)).mem hk)
    · simp only [passRev, hu, if_neg, not_false_iff]
      intro hk
      rcases List.mem_cons.1 hk with rfl | hk2
      · exact hu he
      · rcases List.mem_cons.1 ht with rfl | htr
        · exact hu he
        · exact ih added t htr he hk2

/-- Placement chains compose: a chain continued over the names of a first chain
extends it. -/
theorem goodChain_append : ∀ (l1 l2 : List TableSchema) (a : List String),
    GoodChain a l1 →
    GoodChain ((l1.map (fun t => t.table_name)).reverse ++ a) l2 →
    GoodChain a (l1 ++ l2) := by
  intro l1
  induction l1 with
  | nil => intro l2 a _ h2; simpa using h2
  | cons t l1x ih =>
    intro l2 a h1 h2
    refine ⟨h1.1, ?_⟩
    apply ih l2 (t.table_name :: a) h1.2
    simpa [List.append_assoc] using h2

/-- Loop invariant of the sorter: whatever the fuel, the final remaining tables form a
sublist of the input (original relative order), placed plus remaining is a permutation
of the input, and the placed list is a placement chain from the empty name set. -/
theorem sortLoop_spec : ∀ (fuel : Nat) (sorted remaining : List TableSchema)
    (added : List String) (tables : List TableSchema),
    added = (sorted.map (fun t => t.table_name)).reverse →
    GoodChain [] sorted →
    List.Sublist remaining tables →
    List.Perm (sorted ++ remaining) tables →
    List.Sublist (sortLoop fuel sorted remaining added).2 tables ∧
    List.Perm ((sortLoop fuel sorted remaining added).1 ++
      (sortLoop fuel sorted remaining added).2) tables ∧
    GoodChain [] (sortLoop fuel sorted remaining added).1 := by
  intro fuel
  induction fuel with
  | zero =>
    intro s r a tb h1 h2 h3 h4
    exact ⟨h3, h4, h2⟩
  | succ fuel ih =>
    intro s r a tb h1 h2 h3 h4
    subst h1
    by_cases hre : r.isEmpty
    · simp only [sortLoop, hre, if_pos]
      exact ⟨h3, h4, h2⟩
    · simp only [sortLoop, hre, if_neg, Bool.not_eq_true]
      apply ih
      · rw [passRev_added]
        simp
      · apply goodChain_append s _ [] h2
        have hch := passRev_chain r.reverse
          ((s.map (fun t => t.table_name)).reverse)
        simpa using hch
      · have hs := (passRev_kept_sublist r.reverse
          ((s.map (fun t => t.table_name)).reverse)).reverse
        rw [List.reverse_reverse] at hs
        exact hs.trans h3
      · rw [List.append_assoc]
        refine List.Perm.trans (List.Perm.append_left s ?_) h4
        refine List.Perm.trans (List.Perm.append_left _ (List.reverse_perm _)) ?_
        exact (passRev_perm r.reverse _).trans (List.reverse_perm r)

/-- Completeness of the sorter loop: with enough fuel, closed references, and a rank
function that strictly decreases along non-self foreign-key references, every table is
eventually placed and nothing remains. -/
theorem sortLoop_complete (rank : String → Nat) : ∀ (fuel : Nat)
    (remaining sorted : List TableSchema) (added : List String),
    remaining.length ≤ fuel →
    (∀ t ∈ remaining, ∀ r ∈ fkReferences t, r = t.table_name ∨ r ∈ added ∨
      r ∈ remaining.map (fun u => u.table_name)) →
    (∀ t ∈ remaining, ∀ r ∈ fkReferences t, r ≠ t.table_name →
      rank r < rank t.table_name) →
    (sortLoop fuel sorted remaining added).2 = [] := by
  intro fuel
  induction fuel with
  | zero =>
    intro rem s a hlen _ _
    have hnil : rem = [] := List.eq_nil_of_length_eq_zero (Nat.le_zero.1 hlen)
    simp [sortLoop, hnil]
  | succ fuel ih =>
    intro rem s a hlen hclosed hrank
    by_cases hre : rem.isEmpty
    · simp only [sortLoop, hre, if_pos]
      exact List.isEmpty_iff.1 hre
    · have hne : rem ≠ [] := fun h => hre (by simp [h])
      simp only [sortLoop, hre, if_neg, Bool.not_eq_true]
      obtain ⟨t, htm, hmin⟩ : ∃ t ∈ rem, ∀ u ∈ rem,
          rank t.table_name ≤ rank u.table_name := by
        cases hm : List.argmin (fun u => rank u.table_name) rem with
        | none => exact absurd (List.argmin_eq_none.1 hm) hne
        | some m =>
          have hmem : m ∈ List.argmin (fun u => rank u.table_name) rem := hm
          refine ⟨m, List.argmin_mem hm, fun b hb => ?_⟩
          exact @List.le_of_mem_argmin TableSchema Nat _
            (fun u => rank u.table_name) rem b m hb hmem
      have helig : eligible t a = true := by
        rw [eligible_iff]
        intro r hr
        rcases hclosed t htm r hr with h | h | h
        · exact Or.inr h
        · exact Or.inl h
        · rcases List.mem_map.1 h with ⟨u, hu, rfl⟩
          by_cases hrt : u.table_name = t.table_name
          · exact Or.inr hrt
          · exact absurd (hmin u hu) (Nat.not_le.2 (hrank t htm u.table_name hr hrt))
      have htk := passRev_not_kept rem.reverse a t (List.mem_reverse.2 htm) helig
      have hlt : (passRev rem.reverse a).2.1.length < rem.length := by
        have hsub := passRev_kept_sublist rem.reverse a
        have hle := hsub.length_le
        rw [List.length_reverse] at hle
        rcases Nat.lt_or_ge (passRev rem.reverse a).2.1.length rem.length with h | h
        · exact h
        · have heq : (passRev rem.reverse a).2.1 = rem.reverse :=
            hsub.eq_of_length_le (by rw [List.length_reverse]; exact h)
          rw [heq] at htk
          exact absurd (List.mem_reverse.2 htm) htk
      have hmem_rem : ∀ u ∈ (passRev rem.reverse a).2.1.reverse, u ∈ rem := by
        intro u hu
        have := (passRev_kept_sublist rem.reverse a).mem (List.mem_reverse.1 hu)
        exact List.mem_reverse.1 this
      apply ih
      · rw [List.length_reverse]
        omega
      · intro u hu r hr
        rcases hclosed u (hmem_rem u hu) r hr with h | h | h
        · exact Or.inl h
        · exact Or.inr (Or.inl (by rw [passRev_added]; exact List.mem_append_right _ h))
        · rcases List.mem_map.1 h with ⟨w, hw, rfl⟩
          have hw2 : w ∈ (passRev rem.reverse a).1 ∨ w ∈ (passRev rem.reverse a).2.1 :=
            List.mem_append.1 ((passRev_perm rem.reverse a).mem_iff.2
              (List.mem_reverse.2 hw))
          rcases hw2 with hwp | hwk
          · refine Or.inr (Or.inl ?_)
            rw [passRev_added]
            exact List.mem_append_left _
              (List.mem_reverse.2 (List.mem_map_of_mem _ hwp))
          · exact Or.inr (Or.inr
              (List.mem_map_of_mem _ (List.mem_reverse.2 hwk)))
      · intro u hu r hr hne2
        exact hrank u (hmem_rem u hu) r hr hne2

/-- Along a placement chain, each table references only already-placed names,
the accumulator, or itself. -/
theorem goodChain_refs_before : ∀ (l : List TableSchema) (acc : List String),
    GoodChain acc l → ∀ (i : Nat) (hi : i < l.length),
    ∀ r ∈ fkReferences (l.get ⟨i, hi⟩),
    r ∈ acc ∨ r ∈ (l.take i).map (fun t => t.table_name) ∨
      r = (l.get ⟨i, hi⟩).table_name := by
  intro l
  induction l with
  | nil => intro acc _ i hi; simp at hi
  | cons t rest ih =>
    intro acc hc i hi r hr
    cases i with
    | zero =>
      rcases hc.1 r hr with h | h
      · exact Or.inl h
      · exact Or.inr (Or.inr h)
    | succ j =>
      have hj : j < rest.length := by simpa using hi
      rcases ih (t.table_name :: acc) hc.2 j hj r hr with h | h | h
      · rcases List.mem_cons.1 h with h1 | h2
        · refine Or.inr (Or.inl ?_)
          rw [List.take_succ_cons]
          exact h1 ▸ List.mem_cons_self _ _
        · exact Or.inl h2
      · refine Or.inr (Or.inl ?_)
        rw [List.take_succ_cons]
        exact List.mem_cons_of_mem _ h
      · exact Or.inr (Or.inr h)

/-- An element of a prefix has index below the prefix length. -/
theorem indexOf_lt_of_mem_take : ∀ (l : List String) (i : Nat) (r : String),
    r ∈ l.take i → List.indexOf r l < i := by
  intro l
  induction l with
  | nil => intro i r h; simp at h
  | cons a lx ih =>
    intro i r h
    cases i with
    | zero => simp at h
    | succ j =>
      rw [List.take_succ_cons] at h
      rcases List.mem_cons.1 h with h1 | h2
      · rw [h1, List.indexOf_cons_self]
        exact Nat.succ_pos j
      · by_cases hra : r = a
        · rw [hra, List.indexOf_cons_self]
          exact Nat.succ_pos j
        · rw [List.indexOf_cons_ne lx (fun he => hra he.symm)]
          exact Nat.succ_lt_succ (ih j r h2)

/-- In a duplicate-free list, the index of the element at position i is i. -/
theorem nodup_indexOf_get : ∀ (l : List String) (i : Nat) (hi : i < l.length),
    l.Nodup → List.indexOf (l.get ⟨i, hi⟩) l = i := by
  intro l
  induction l with
  | nil => intro i hi; simp at hi
  | cons a lx ih =>
    intro i hi hnd
    cases i with
    | zero => exact List.indexOf_cons_self a lx
    | succ j =>
      have hj : j < lx.length := by simpa using hi
      have hget : (a :: lx).get ⟨j + 1, hi⟩ = lx.get ⟨j, hj⟩ := rfl
      rw [hget]
      have hne : a ≠ lx.get ⟨j, hj⟩ := by
        intro he
        exact (List.nodup_cons.1 hnd).1 (he ▸ List.get_mem lx j hj)
      rw [List.indexOf_cons_ne lx hne]
      rw [ih j hj (List.nodup_cons.1 hnd).2]

/-- C4 counterexample: with dangling references (tables `a` referencing `b` and the
absent `x`, `b` referencing the absent `y`) an ordering satisfying every non-self
reference exists (put `b` before `a`), yet the sorter leaves `b` after `a`:
eligibility demands every referenced name be already placed, so absent targets
block placement and the pass bound expires with the original order. -/
theorem c4_counterexample :
    (∃ rank : String → Nat,
      ∀ t ∈ [tblAdangling, tblBdangling], ∀ r ∈ fkReferences t,
        r ≠ t.table_name → rank r < rank t.table_name) ∧
    tblAdangling ∈ [tblAdangling, tblBdangling] ∧
    "b" ∈ fkReferences tblAdangling ∧
    "b" ≠ tblAdangling.table_name ∧
    ¬ (List.indexOf "b"
        ((sortTablesByDependencies [tblAdangling, tblBdangling]).map
          (fun u => u.table_name)) ≤
       List.indexOf tblAdangling.table_name
        ((sortTablesByDependencies [tblAdangling, tblBdangling]).map
          (fun u => u.table_name))) := by
  refine ⟨⟨fun s => if s = "a" then 2 else if s = "b" then 1 else 0, ?_⟩,
    ?_, ?_, ?_, ?_⟩ <;> decide

/-- C4 (amended): the sort always terminates and returns every input table exactly
once (a permutation of the input), with tables still unplaced after the pass bound
appended at the end in their original relative order (a sublist of the input);
and when table names are distinct, every foreign-key reference targets the name of
some input table, and an ordering satisfying all non-self references exists (a rank
strictly decreasing along them), then for all tables T with a non-self reference to
a name r, r's position in the output is at or before T's position. -/
theorem c4_sort_amended (tables : List TableSchema) :
    List.Perm (sortTablesByDependencies tables) tables ∧
    List.Sublist (sortResult tables).2 tables ∧
    ((tables.map (fun t => t.table_name)).Nodup →
      (∀ t ∈ tables, ∀ r ∈ fkReferences t,
        r ∈ tables.map (fun u => u.table_name)) →
      (∃ rank : String → Nat, ∀ t ∈ tables, ∀ r ∈ fkReferences t,
        r ≠ t.table_name → rank r < rank t.table_name) →
      ∀ t ∈ tables, ∀ r ∈ fkReferences t, r ≠ t.table_name →
        List.indexOf r
          ((sortTablesByDependencies tables).map (fun u => u.table_name)) ≤
        List.indexOf t.table_name
          ((sortTablesByDependencies tables).map (fun u => u.table_name))) := by
  obtain ⟨hsub, hperm, hchain⟩ := sortLoop_spec (2 * tables.length) [] tables []
    tables rfl trivial (List.Sublist.refl tables) (by simp)
  refine ⟨hperm, hsub, ?_⟩
  intro hnd hclosed hord t ht r hr hne
  obtain ⟨rank, hrank⟩ := hord
  have hcomplete : (sortResult tables).2 = [] := by
    apply sortLoop_complete rank (2 * tables.length) tables [] []
    · omega
    · intro u hu s hs
      exact Or.inr (Or.inr (hclosed u hu s hs))
    · exact hrank
  have hout : sortTablesByDependencies tables = (sortResult tables).1 := by
    rw [sortTablesByDependencies, hcomplete, List.append_nil]
  have hchain2 : GoodChain [] (sortTablesByDependencies tables) := by
    rw [hout]; exact hchain
  have hperm2 : List.Perm (sortTablesByDependencies tables) tables := hperm
  have hnd2 : ((sortTablesByDependencies tables).map
      (fun u => u.table_name)).Nodup :=
    (List.Perm.nodup_iff (hperm2.map (fun u => u.table_name))).2 hnd
  obtain ⟨n, hgn⟩ := List.mem_iff_get.1 (hperm2.mem_iff.2 ht)
  have hrn : r ∈ fkReferences ((sortTablesByDependencies tables).get n) := by
    rw [hgn]; exact hr
  have hn2 : (n : Nat) < ((sortTablesByDependencies tables).map
      (fun u => u.table_name)).length := by
    rw [List.length_map]; exact n.2
  have hgn2 : (sortTablesByDependencies tables)[(n : Nat)] = t := hgn
  have hgetname : ((sortTablesByDependencies tables).map
      (fun u => u.table_name)).get ⟨(n : Nat), hn2⟩ = t.table_name := by
    simp only [List.get_eq_getElem, List.getElem_map, hgn2]
  have hidxt : List.indexOf t.table_name
      ((sortTablesByDependencies tables).map (fun u => u.table_name)) = (n : Nat) := by
    rw [← hgetname]
    exact nodup_indexOf_get _ (n : Nat) hn2 hnd2
  rcases goodChain_refs_before (sortTablesByDependencies tables) [] hchain2
      (n : Nat) n.2 r hrn with h | h | h
  · exact absurd h (List.not_mem_nil r)
  · rw [List.map_take] at h
    rw [hidxt]
    exact Nat.le_of_lt (indexOf_lt_of_mem_take _ (n : Nat) r h)
  · rw [hgn] at h
    exact absurd h hne

/-- Witness for C4: on the concrete input `[a referencing b, b]` the hypotheses hold
(distinct names, closed references, rank a=1 b=0) and the output places `b` at or
before `a`. -/
theorem c4_sort_amended_witness :
    ([tblA, tblB].map (fun t => t.table_name)).Nodup ∧
    (∀ t ∈ [tblA, tblB], ∀ r ∈ fkReferences t,
      r ∈ [tblA, tblB].map (fun u => u.table_name)) ∧
    (∃ rank : String → Nat, ∀ t ∈ [tblA, tblB], ∀ r ∈ fkReferences t,
      r ≠ t.table_name → rank r < rank t.table_name) ∧
    tblA ∈ [tblA, tblB] ∧ "b" ∈ fkReferences tblA ∧ "b" ≠ tblA.table_name ∧
    List.indexOf "b"
      ((sortTablesByDependencies [tblA, tblB]).map (fun u => u.table_name)) ≤
      List.indexOf tblA.table_name
        ((sortTablesByDependencies [tblA, tblB]).map (fun u => u.table_name)) :=
  ⟨by decide, by decide,
   ⟨fun s => if s = "a" then 1 else 0, by decide⟩,
   by decide, by decide, by decide,
   (c4_sort_amended [tblA, tblB]).2.2 (by decide) (by decide)
     ⟨fun s => if s = "a" then 1 else 0, by decide⟩ tblA (by decide) "b" (by decide)
     (by decide)⟩

end NeoPg